import Mathlib

/-!
Verification development for the strapi-dify-translations plugin.

The definitions below are a shallow embedding of the plugin's translation
service (`server/src/services/translation.ts`) and progress service
(`server/src/services/progress.ts`).  JavaScript runtime values are modelled
by `JSValue`; `undefined` is modelled as `Option.none` wherever a value can be
absent.  Documents and plain objects are association lists in insertion order,
mirroring JavaScript object key order for the non-numeric keys used here.
Collaborator services (the document store, `JSON.parse`) are parameters.
-/

set_option maxHeartbeats 1000000

namespace DifyTranslations

/-- A JavaScript runtime value.  `varr` carries both the array elements and
the string-keyed own properties an array can acquire by assignment. -/
inductive JSValue where
  | vnull
  | vbool (b : Bool)
  | vnum (n : Int)
  | vstr (s : String)
  | vobj (props : List (String × JSValue))
  | varr (items : List JSValue) (props : List (String × JSValue))

/-- A document / plain object: association list of own properties in
insertion order. -/
abbrev Doc := List (String × JSValue)

/-- First-match association-list lookup (JS property read on an object). -/
def assoc {α : Type} : List (String × α) → String → Option α
  | [], _ => none
  | (k, v) :: rest, key => if k = key then some v else assoc rest key

/-- Association-list update: replace the binding in place (JS assignment
keeps the key's position in insertion order) or append a fresh binding. -/
def pSet {α : Type} : List (String × α) → String → α → List (String × α)
  | [], key, v => [(key, v)]
  | (k, w) :: rest, key, v =>
    if k = key then (k, v) :: rest else (k, w) :: pSet rest key v

/-- JavaScript truthiness (NaN is not modelled). -/
def truthy : JSValue → Bool
  | .vnull => false
  | .vbool b => b
  | .vnum n => n != 0
  | .vstr s => s != ""
  | .vobj _ => true
  | .varr _ _ => true

/-- Truthiness of a possibly-undefined value. -/
def truthyOpt : Option JSValue → Bool
  | some v => truthy v
  | none => false

/-- JS `a || b` on possibly-undefined operands. -/
def jsOr (a b : Option JSValue) : Option JSValue :=
  match a with
  | some v => if truthy v then some v else b
  | none => b

/-- JS `a || d` where the right operand is a known value. -/
def jsOrV (a : Option JSValue) (d : JSValue) : JSValue :=
  match a with
  | some v => if truthy v then v else d
  | none => d

/-- JS `a ?? b` (null coalescing; `undefined` is `none`). -/
def jsCoalesce (a b : Option JSValue) : Option JSValue :=
  match a with
  | some .vnull => b
  | some v => some v
  | none => b

/-- JS `x !== undefined && x !== null`. -/
def definedNonNull : Option JSValue → Bool
  | some .vnull => false
  | some _ => true
  | none => false

/-! Structurally recursive character-level string helpers (the library
versions do not reduce inside the kernel, which the concrete evaluations
below rely on). -/

/-- Split a character list on every occurrence of a separator character
(JS `String.prototype.split` with a one-character separator). -/
def splitOnChar (sep : Char) : List Char → List (List Char)
  | [] => [[]]
  | c :: rest =>
    let r := splitOnChar sep rest
    if c = sep then [] :: r
    else
      match r with
      | h :: t => (c :: h) :: t
      | [] => [[c]]

/-- String version of `splitOnChar`. -/
def strSplitOnChar (s : String) (sep : Char) : List String :=
  (splitOnChar sep s.data).map String.mk

/-- Whitespace stripped by `String.prototype.trim` (the whitespace that can
occur in the streams modelled here). -/
def isJsTrimWs (c : Char) : Bool :=
  c = ' ' || c = '\t' || c = '\n' || c = '\r'

/-- JS `s.trim()`. -/
def jsTrim (s : String) : String :=
  String.mk (((s.data.dropWhile isJsTrimWs).reverse.dropWhile isJsTrimWs).reverse)

/-- Character-list prefix test. -/
def listHasPrefix : List Char → List Char → Bool
  | [], _ => true
  | _ :: _, [] => false
  | p :: ps, c :: cs => p = c && listHasPrefix ps cs

/-- JS `s.startsWith(pre)`. -/
def jsStartsWith (s pre : String) : Bool :=
  listHasPrefix pre.data s.data

/-- JS `s.slice(n)` for a non-negative start. -/
def jsSlice (s : String) (n : Nat) : String :=
  String.mk (s.data.drop n)

/-- JS property read `v[k]` (optional-chaining style: primitives yield
`undefined`).  For arrays, the string-keyed own properties are consulted;
reading an element through its canonical index string is not modelled — no
configured field path names an array index. -/
def jsProp : JSValue → String → Option JSValue
  | .vobj props, k => assoc props k
  | .varr _ props, k => assoc props k
  | _, _ => none

/-- JS `v?.k` on a possibly-undefined receiver. -/
def jsPropO : Option JSValue → String → Option JSValue
  | some v, k => jsProp v k
  | none, _ => none

/-- JS `typeof v === 'object'` (true for objects, arrays and `null`). -/
def isObjectTypeof : JSValue → Bool
  | .vobj _ => true
  | .varr _ _ => true
  | .vnull => true
  | _ => false

mutual
/-- JS `String(v)` for the value shapes that occur here. -/
def jsToString : JSValue → String
  | .vnull => "null"
  | .vbool b => if b then "true" else "false"
  | .vnum n => toString n
  | .vstr s => s
  | .vobj _ => "[object Object]"
  | .varr items _ => jsToStringItems items

/-- JS array-to-string: elements joined by commas. -/
def jsToStringItems : List JSValue → String
  | [] => ""
  | [x] => jsToStringElem x
  | x :: rest => jsToStringElem x ++ "," ++ jsToStringItems rest

/-- Array elements stringify like `String`, except `null` becomes empty. -/
def jsToStringElem : JSValue → String
  | .vnull => ""
  | v => jsToString v
end

/-- JS spread `{...v}` of a truthy object-typeof value: objects copy their
properties; arrays enumerate elements under their index strings followed by
any string-keyed own properties. -/
def spreadCopy : JSValue → JSValue
  | .vobj props => .vobj props
  | .varr items props =>
    .vobj ((items.enum.map (fun p => (toString p.1, p.2))) ++ props)
  | v => v

/-! ## Content-type schema registry (`strapi.contentTypes`) -/

/-- One attribute of a content-type schema.  The nested JS option chain
`pluginOptions?.i18n?.localized` is flattened into `localized` (`none` when
any link of the chain is absent). -/
structure AttributeSchema where
  type : String
  target : Option String := none
  «private» : Bool := false
  localized : Option Bool := none

/-- A content-type schema: its attribute map (insertion order) and the
type-level `pluginOptions?.i18n?.localized` flag. -/
structure ContentTypeSchema where
  attributes : List (String × AttributeSchema)
  localized : Option Bool := none

/-- The schema registry `strapi.contentTypes`. -/
abbrev ContentTypes := List (String × ContentTypeSchema)

/-- `fieldExistsInSchema` from the translation service. -/
def fieldExistsInSchema (contentTypes : ContentTypes) (contentType fieldName : String) : Bool :=
  match assoc contentTypes contentType with
  | none => false
  | some schema => (assoc schema.attributes fieldName).isSome

/-- `getRelationFields`: names of attributes whose type is `relation`. -/
def getRelationFields (contentTypes : ContentTypes) (contentType : String) : List String :=
  match assoc contentTypes contentType with
  | none => []
  | some schema =>
    (schema.attributes.filter (fun p => p.2.type == "relation")).map Prod.fst

/-- `getComponentFields`: component field names and dynamic-zone field names. -/
def getComponentFields (contentTypes : ContentTypes) (contentType : String) :
    List String × List String :=
  match assoc contentTypes contentType with
  | none => ([], [])
  | some schema =>
    ((schema.attributes.filter (fun p => p.2.type == "component")).map Prod.fst,
     (schema.attributes.filter (fun p => p.2.type == "dynamiczone")).map Prod.fst)

/-- The fixed exclusion list of `getLocalizableFields`. -/
def excludedFields : List String :=
  ["id", "documentId", "createdAt", "updatedAt", "publishedAt",
   "createdBy", "updatedBy", "locale", "localizations"]

/-- `getLocalizableFields`: all attributes except the exclusion list and
private fields, keeping only fields whose localization flag is not
explicitly `false`. -/
def getLocalizableFields (contentTypes : ContentTypes) (contentType : String) : List String :=
  match assoc contentTypes contentType with
  | none => []
  | some schema =>
    (schema.attributes.filter (fun p =>
      !excludedFields.contains p.1 && !p.2.«private» && p.2.localized != some false)).map Prod.fst

/-- `isContentTypeLocalized`: the type-level localization flag is `=== true`. -/
def isContentTypeLocalized (contentTypes : ContentTypes) (contentType : String) : Bool :=
  match assoc contentTypes contentType with
  | none => false
  | some schema => schema.localized == some true

/-- `getRelationTarget`: the target content type of a relation attribute
(the source checks `attribute.target` for truthiness, so an empty string is
treated as absent). -/
def getRelationTarget (contentTypes : ContentTypes) (contentType fieldName : String) :
    Option String :=
  match assoc contentTypes contentType with
  | none => none
  | some schema =>
    match assoc schema.attributes fieldName with
    | some attr =>
      if attr.type == "relation" then
        match attr.target with
        | some t => if t = "" then none else some t
        | none => none
      else none
    | none => none

/-! ## Field-path helpers and the Dify field-name codec -/

/-- `isNestedField`: the path contains a dot. -/
def isNestedField (fieldPath : String) : Bool :=
  fieldPath.data.contains '.'

/-- `parseNestedField`: split on dots; only exactly one level of nesting is
accepted. -/
def parseNestedField (fieldPath : String) : Option (String × String) :=
  match strSplitOnChar fieldPath '.' with
  | [c, f] => some (c, f)
  | _ => none

/-- JS `String.prototype.replace` with a string pattern replaces only the
first occurrence. -/
def replaceFirstDot : List Char → List Char
  | [] => []
  | c :: rest => if c = '.' then '_' :: rest else c :: replaceFirstDot rest

/-- `toDifyFieldName`: `fieldPath.replace('.', '_')` (first dot only). -/
def toDifyFieldName (fieldPath : String) : String :=
  ⟨replaceFirstDot fieldPath.data⟩

/-- `fromDifyFieldName`: the first configured field whose encoding matches;
unmatched names pass through unchanged. -/
def fromDifyFieldName (difyFieldName : String) (translatableFields : List String) : String :=
  match translatableFields.find? (fun c => toDifyFieldName c == difyFieldName) with
  | some c => c
  | none => difyFieldName

/-- `getNestedValue`: read `document[component][field]`; `undefined` unless
the component value is a truthy object. -/
def getNestedValue (document : Doc) (fieldPath : String) : Option JSValue :=
  match parseNestedField fieldPath with
  | none => none
  | some (c, f) =>
    match assoc document c with
    | some v => if truthy v && isObjectTypeof v then jsProp v f else none
    | none => none

/-- `existingEntry?.[k]`: a field read on the possibly-absent existing
target-locale document. -/
def existingField (ex : Option Doc) (k : String) : Option JSValue :=
  match ex with
  | some e => assoc e k
  | none => none

/-- `existingEntry ? getNestedValue(existingEntry, p) : undefined`. -/
def existingNested (ex : Option Doc) (p : String) : Option JSValue :=
  match ex with
  | some e => getNestedValue e p
  | none => none

/-- First half of `setNestedValue`: initialise `data[component]` when it is
falsy, shallow-copying `existingComponent` when that is a truthy object. -/
def snvInit (data : Doc) (c : String) (existingComponent : Option JSValue) : Doc :=
  if truthyOpt (assoc data c) then data
  else
    match existingComponent with
    | some ec =>
      if truthy ec && isObjectTypeof ec then pSet data c (spreadCopy ec)
      else pSet data c (.vobj [])
    | none => pSet data c (.vobj [])

/-- Second half of `setNestedValue`: the subfield assignment
`data[component][field] = value`.  The modules compile in strict mode, so
assigning a property to a truthy primitive raises a `TypeError`, modelled
as `Except.error`. -/
def snvAssign (data1 : Doc) (c f : String) (value : JSValue) : Except String Doc :=
  match assoc data1 c with
  | some (.vobj props) => .ok (pSet data1 c (.vobj (pSet props f value)))
  | some (.varr items props) => .ok (pSet data1 c (.varr items (pSet props f value)))
  | _ => .error "Cannot create property on a non-object value"

/-- `setNestedValue`: initialise the component object if needed, then assign
the named subfield. -/
def setNestedValue (data : Doc) (fieldPath : String) (value : JSValue)
    (existingComponent : Option JSValue) : Except String Doc :=
  match parseNestedField fieldPath with
  | none => .ok data
  | some (c, f) => snvAssign (snvInit data c existingComponent) c f value

/-! ## Relations -/

/-- `extractRelationIds`: identifiers from a populated relation value. -/
def extractRelationIds (value : JSValue) : List JSValue :=
  if !truthy value then []
  else
    match value with
    | .varr items _ =>
      (items.map (fun item => jsOr (jsProp item "documentId") (jsProp item "id"))).filterMap
        (fun o =>
          match o with
          | some x => if truthy x then some x else none
          | none => none)
    | .vobj _ =>
      match jsOr (jsProp value "documentId") (jsProp value "id") with
      | some idv => if truthy idv then [.vstr (jsToString idv)] else []
      | none => []
    | _ => []

/-- `formatRelationForUpdate`: a `connect` directive, or `none` when there
are no identifiers. -/
def formatRelationForUpdate (value : JSValue) : Option JSValue :=
  if !truthy value then none
  else
    let ids := extractRelationIds value
    if ids.isEmpty then none
    else
      some (.vobj [("connect",
        .varr (ids.map (fun idv => .vobj [("documentId", .vstr (jsToString idv))])) [])])

/-- The document-store collaborator:
`findOne(contentType, documentId, locale)`.  A lookup that throws behaves
like an absent document for the callers modelled here. -/
abbrev DocStore := String → JSValue → String → Option Doc

/-- `filterExistingRelations`: probe each identifier one at a time in the
target locale, silently dropping the ones that do not resolve. -/
def filterExistingRelations (store : DocStore) (relationTarget : String)
    (documentIds : List JSValue) (locale : String) : List JSValue :=
  documentIds.filter (fun docId => (store relationTarget docId locale).isSome)

/-! ## The merge engine (`storeTranslation`) -/

/-- The plugin context available to `storeTranslation`: schema registry,
configured translatable fields and the configured source locale. -/
structure TransCtx where
  contentTypes : ContentTypes
  translatableFields : List String
  sourceLocale : String

/-- Optional callback metadata (`{success?, error?}`). -/
structure CallbackMetadata where
  success : Option String := none
  error : Option String := none

/-- The failure guard `metadata?.success === 'false' || metadata?.error`. -/
def metadataFailed : Option CallbackMetadata → Bool
  | none => false
  | some m =>
    m.success == some "false" ||
      (match m.error with
       | some e => e != ""
       | none => false)

/-- The failure message text `metadata.error || 'Unknown error'`. -/
def metadataErrorText : Option CallbackMetadata → String
  | some m =>
    match m.error with
    | some e => if e = "" then "Unknown error" else e
    | none => "Unknown error"
  | none => "Unknown error"

/-- Invert the incoming callback keys and partition them into regular and
nested translated fields (lines 606-619 of the service): keys are accepted
when the configured list is empty or contains the inverted key; the two
groups are built with object-assignment semantics. -/
def splitTranslatedFields (translatableFields : List String) (fields : Doc) : Doc × Doc :=
  fields.foldl
    (fun acc kv =>
      let internalKey := fromDifyFieldName kv.1 translatableFields
      if translatableFields.isEmpty || translatableFields.contains internalKey then
        if isNestedField internalKey then (acc.1, pSet acc.2 internalKey kv.2)
        else (pSet acc.1 internalKey kv.2, acc.2)
      else acc)
    ([], [])

/-- The value the merge loop assigns for one localizable field (lines
644-685): the relation, component/dynamic-zone and plain-field policies.
`none` means the field is left out of the write payload. -/
def mergeFieldValue (ctx : TransCtx) (store : DocStore) (contentType locale : String)
    (sourceDoc : Doc) (existing : Option Doc) (translatedRegular : Doc)
    (fieldName : String) : Option JSValue :=
  let sourceValue := assoc sourceDoc fieldName
  let translatedValue := assoc translatedRegular fieldName
  let existingValue := existingField existing fieldName
  if (getRelationFields ctx.contentTypes contentType).contains fieldName then
    let relationTarget := getRelationTarget ctx.contentTypes contentType fieldName
    let isTargetLocalized :=
      match relationTarget with
      | some t => isContentTypeLocalized ctx.contentTypes t
      | none => false
    let relationValue := jsOr existingValue sourceValue
    match relationValue, relationTarget with
    | some rv, some target =>
      if truthy rv then
        if isTargetLocalized then
          let allIds := extractRelationIds rv
          let existingIds := filterExistingRelations store target allIds locale
          if existingIds.length > 0 then
            some (.vobj [("connect",
              .varr (existingIds.map (fun idv => .vobj [("documentId", idv)])) [])])
          else none
        else formatRelationForUpdate rv
      else none
    | _, _ => none
  else if (getComponentFields ctx.contentTypes contentType).1.contains fieldName
      || (getComponentFields ctx.contentTypes contentType).2.contains fieldName then
    match jsCoalesce existingValue sourceValue with
    | some .vnull => none
    | some v => some v
    | none => none
  else
    if definedNonNull translatedValue then translatedValue
    else if definedNonNull existingValue then existingValue
    else if definedNonNull sourceValue then sourceValue
    else none

/-- One iteration of the localizable-fields merge loop: assign the computed
value, or leave the payload untouched when there is none. -/
def mergeField (ctx : TransCtx) (store : DocStore) (contentType locale : String)
    (sourceDoc : Doc) (existing : Option Doc) (translatedRegular : Doc)
    (md : Doc) (fieldName : String) : Doc :=
  match mergeFieldValue ctx store contentType locale sourceDoc existing translatedRegular
      fieldName with
  | some v => pSet md fieldName v
  | none => md

/-- The full localizable-fields merge loop, starting from an empty payload. -/
def mergeLocalizable (ctx : TransCtx) (store : DocStore) (contentType locale : String)
    (sourceDoc : Doc) (existing : Option Doc) (translatedRegular : Doc) : Doc :=
  (getLocalizableFields ctx.contentTypes contentType).foldl
    (mergeField ctx store contentType locale sourceDoc existing translatedRegular) []

/-- The base-component selection `mergedData[c] || existingComponent ||
sourceComponent` both nested loops use. -/
def nestedBase (md : Doc) (existing : Option Doc) (sourceDoc : Doc) (c : String) :
    Option JSValue :=
  jsOr (jsOr (assoc md c) (existingField existing c)) (assoc sourceDoc c)

/-- One iteration of the translated-nested-fields loop (lines 687-700). -/
def nestedTranslatedStep (ctx : TransCtx) (contentType : String)
    (sourceDoc : Doc) (existing : Option Doc)
    (md : Doc) (entry : String × JSValue) : Except String Doc :=
  match parseNestedField entry.1 with
  | none => .ok md
  | some (c, _f) =>
    if !fieldExistsInSchema ctx.contentTypes contentType c then .ok md
    else
      let baseComponent := nestedBase md existing sourceDoc c
      match entry.2 with
      | .vnull => .ok md
      | v => setNestedValue md entry.1 v baseComponent

/-- The translated-nested-fields loop. -/
def applyTranslatedNested (ctx : TransCtx) (contentType : String)
    (sourceDoc : Doc) (existing : Option Doc)
    (md : Doc) (translatedNested : Doc) : Except String Doc :=
  translatedNested.foldlM (nestedTranslatedStep ctx contentType sourceDoc existing) md

/-- One iteration of the configured-nested-fields backfill loop (lines
702-718); the guard `!translatedNestedFields[configField]` is a truthiness
test on the translated value. -/
def nestedConfiguredStep (ctx : TransCtx) (contentType : String)
    (sourceDoc : Doc) (existing : Option Doc) (translatedNested : Doc)
    (md : Doc) (configField : String) : Except String Doc :=
  if isNestedField configField && !truthyOpt (assoc translatedNested configField) then
    match parseNestedField configField with
    | some (c, _f) =>
      if fieldExistsInSchema ctx.contentTypes contentType c then
        let sourceValue := getNestedValue sourceDoc configField
        let existingValue := existingNested existing configField
        match jsCoalesce existingValue sourceValue with
        | some .vnull => .ok md
        | none => .ok md
        | some v => setNestedValue md configField v (nestedBase md existing sourceDoc c)
      else .ok md
    | none => .ok md
  else .ok md

/-- The configured-nested-fields backfill loop. -/
def applyConfiguredNested (ctx : TransCtx) (contentType : String)
    (sourceDoc : Doc) (existing : Option Doc) (translatedNested : Doc)
    (md : Doc) : Except String Doc :=
  ctx.translatableFields.foldlM
    (nestedConfiguredStep ctx contentType sourceDoc existing translatedNested) md

/-- Observable outcome of `storeTranslation`: an early metadata failure
result, a thrown error, or a document-store update with the given payload. -/
inductive StoreOutcome where
  | failed (message : String)
  | errored (message : String)
  | written (data : Doc) (message : String)

/-- `storeTranslation`: the merge engine.  A failing metadata guard returns
immediately; otherwise the source and existing target documents are read,
the three merge passes run, and the payload is written with `publishedAt`
forced to `null`.  Errors thrown inside the `try` block are re-wrapped. -/
def storeTranslation (ctx : TransCtx) (store : DocStore)
    (documentId contentType locale : String)
    (fields : Doc) (metadata : Option CallbackMetadata) : StoreOutcome :=
  if metadataFailed metadata then
    .failed ("Translation failed: " ++ metadataErrorText metadata)
  else
    match assoc ctx.contentTypes contentType with
    | none => .errored ("Content type " ++ contentType ++ " not found")
    | some _schema =>
      let split := splitTranslatedFields ctx.translatableFields fields
      match store contentType (.vstr documentId) ctx.sourceLocale with
      | none =>
        .errored ("Failed to store translation: Source document " ++ documentId ++
          " not found for locale " ++ ctx.sourceLocale)
      | some sourceDoc =>
        let existing := store contentType (.vstr documentId) locale
        let md1 := mergeLocalizable ctx store contentType locale sourceDoc existing split.1
        match applyTranslatedNested ctx contentType sourceDoc existing md1 split.2 with
        | .error e => .errored ("Failed to store translation: " ++ e)
        | .ok md2 =>
          match applyConfiguredNested ctx contentType sourceDoc existing split.2 md2 with
          | .error e => .errored ("Failed to store translation: " ++ e)
          | .ok md3 =>
            .written (pSet md3 "publishedAt" .vnull)
              ("Translation stored for locale " ++ locale)

/-! ## Job progress tracker (`services/progress.ts`)

The in-memory registry is modelled as an association list of jobs; the
wall-clock fields (`startedAt`, the 5-minute eviction timer) are outside
this pure step model. -/

/-- Progress event kinds. -/
inductive EventType where
  | started
  | node_started
  | node_finished
  | completed
  | error
deriving DecidableEq, Repr

/-- One progress event; `index` is optional in the source type and is
assigned by `addEvent`. -/
structure ProgressEvent where
  jobId : String
  type : EventType
  message : String
  current : Option Nat := none
  total : Option Nat := none
  nodeName : Option String := none
  index : Option Nat := none
deriving DecidableEq, Repr

/-- Job lifecycle status. -/
inductive JobStatus where
  | running
  | completed
  | error
deriving DecidableEq, Repr

/-- One tracked translation job. -/
structure TranslationJob where
  id : String
  documentId : String
  contentType : String
  targetLocales : List String
  status : JobStatus
  currentNode : Option String := none
  completedLocales : Nat
  totalLocales : Nat
  events : List ProgressEvent
deriving DecidableEq, Repr

/-- The `activeJobs` registry. -/
abbrev Jobs := List (String × TranslationJob)

/-- `addEvent`: append the event with the next sequential index; a no-op
when the job is unknown. -/
def addEvent (jobs : Jobs) (jobId : String) (event : ProgressEvent) : Jobs :=
  match assoc jobs jobId with
  | none => jobs
  | some job =>
    pSet jobs jobId
      { job with events := job.events ++ [{ event with index := some job.events.length }] }

/-- Pluralised suffix used by the progress messages. -/
def pluralS (n : Nat) : String :=
  if n > 1 then "s" else ""

/-- `startJob`: register a fresh running job and record its `started` event. -/
def startJob (jobs : Jobs) (jobId documentId contentType : String)
    (targetLocales : List String) : Jobs :=
  let job : TranslationJob :=
    { id := jobId, documentId := documentId, contentType := contentType,
      targetLocales := targetLocales, status := .running,
      completedLocales := 0, totalLocales := targetLocales.length, events := [] }
  addEvent (pSet jobs jobId job) jobId
    { jobId := jobId, type := .started,
      message := "Starting translation to " ++ toString targetLocales.length ++
        " language" ++ pluralS targetLocales.length,
      current := some 0, total := some targetLocales.length }

/-- Default terminal message of `completeJob`. -/
def completeDefaultMessage (success : Bool) (totalLocales : Nat) : String :=
  if success then
    "Translation completed for " ++ toString totalLocales ++ " language" ++
      pluralS totalLocales
  else "Translation failed"

/-- `completeJob`: set the terminal status and append the terminal event (a
no-op when the job is unknown).  The delayed eviction timer is outside this
model. -/
def completeJob (jobs : Jobs) (jobId : String) (success : Bool)
    (message : Option String) : Jobs :=
  match assoc jobs jobId with
  | none => jobs
  | some job =>
    let jobs1 := pSet jobs jobId { job with status := if success then .completed else .error }
    addEvent jobs1 jobId
      { jobId := jobId, type := if success then .completed else .error,
        message :=
          match message with
          | some m => if m = "" then completeDefaultMessage success job.totalLocales else m
          | none => completeDefaultMessage success job.totalLocales,
        current := some job.completedLocales, total := some job.totalLocales }

/-! ## Dispatch and stream processing (`sendToTranslation`) -/

/-- The progress-service calls the dispatcher can make while a job runs. -/
inductive ProgressAction where
  | startJob (jobId documentId contentType : String) (targetLocales : List String)
  | nodeStarted (nodeType title : JSValue)
  | nodeFinished (nodeType title : JSValue)
  | complete (success : Bool) (message : Option JSValue)

/-- Process one complete line of the event stream.  The state is the
current-event-type variable paired with the actions emitted so far. -/
def processLine (parseJson : String → Option JSValue)
    (st : String × List ProgressAction) (line : String) : String × List ProgressAction :=
  let currentEvent := st.1
  let trimmedLine := jsTrim line
  if jsStartsWith trimmedLine "event:" then
    (jsTrim (jsSlice trimmedLine 6), st.2)
  else if jsStartsWith trimmedLine "data:" then
    let dataStr := jsTrim (jsSlice trimmedLine 5)
    let acts :=
      if dataStr = "" then st.2
      else
        match parseJson dataStr with
        | none => st.2
        | some eventData =>
          let eventType : JSValue :=
            if currentEvent ≠ "" then .vstr currentEvent
            else jsOrV (jsProp eventData "event") (.vstr "unknown")
          match eventType with
          | .vstr "node_started" =>
            st.2 ++ [.nodeStarted
              (jsOrV (jsPropO (jsProp eventData "data") "node_type") (.vstr "unknown"))
              (jsOrV (jsPropO (jsProp eventData "data") "title") (.vstr ""))]
          | .vstr "node_finished" =>
            st.2 ++ [.nodeFinished
              (jsOrV (jsPropO (jsProp eventData "data") "node_type") (.vstr "unknown"))
              (jsOrV (jsPropO (jsProp eventData "data") "title") (.vstr ""))]
          | .vstr "workflow_finished" =>
            let statusV := jsPropO (jsProp eventData "data") "status"
            match statusV with
            | some (.vstr "succeeded") => st.2 ++ [.complete true none]
            | some v =>
              st.2 ++ [.complete false (some (.vstr ("Workflow status: " ++ jsToString v)))]
            | none =>
              st.2 ++ [.complete false (some (.vstr "Workflow status: undefined"))]
          | .vstr "error" =>
            st.2 ++ [.complete false
              (some (jsOrV (jsProp eventData "message") (.vstr "Dify workflow error")))]
          | _ => st.2
    ("", acts)
  else (currentEvent, st.2)

/-- Process one decoded chunk: append to the carried buffer, split on
newlines, re-buffer the trailing partial line, and run the line loop.  The
source declares `let currentEvent = ''` inside the per-chunk loop body, so
the event-type variable does not survive a chunk boundary. -/
def processChunk (parseJson : String → Option JSValue)
    (st : String × List ProgressAction) (chunk : String) : String × List ProgressAction :=
  let buffer := st.1 ++ chunk
  let lines := strSplitOnChar buffer '\n'
  let newBuffer := (lines.getLast?).getD ""
  let procLines := lines.dropLast
  (newBuffer, (procLines.foldl (processLine parseJson) ("", st.2)).2)

/-- The incremental stream parser over a sequence of decoded chunks; any
trailing partial line left in the buffer when the stream ends is dropped. -/
def sseParseChunks (parseJson : String → Option JSValue)
    (chunks : List String) : List ProgressAction :=
  (chunks.foldl (processChunk parseJson) ("", [])).2

/-! ## A small JSON parser

Stands in for the platform's `JSON.parse` on the subset needed by the
concrete stream inputs below: objects, arrays, strings with the common
escapes, integers, booleans and `null`.  Fractional numbers and `\u`
escapes are rejected. -/

/-- JSON whitespace. -/
def isJsonWs (c : Char) : Bool :=
  c = ' ' || c = '\t' || c = '\n' || c = '\r'

/-- Skip JSON whitespace. -/
def skipWs : List Char → List Char
  | [] => []
  | c :: rest => if isJsonWs c then skipWs rest else c :: rest

/-- Parse the remainder of a JSON string (after the opening quote). -/
def parseJsonStringChars : Nat → List Char → Option (String × List Char)
  | 0, _ => none
  | _, [] => none
  | Nat.succ fuel, c :: rest =>
    if c = '"' then some ("", rest)
    else if c = '\\' then
      match rest with
      | [] => none
      | e :: rest2 =>
        let esc : Option Char :=
          if e = '"' then some '"'
          else if e = '\\' then some '\\'
          else if e = '/' then some '/'
          else if e = 'n' then some '\n'
          else if e = 't' then some '\t'
          else if e = 'r' then some '\r'
          else none
        match esc with
        | some ec =>
          (parseJsonStringChars fuel rest2).map (fun p => (String.mk (ec :: p.1.data), p.2))
        | none => none
    else (parseJsonStringChars fuel rest).map (fun p => (String.mk (c :: p.1.data), p.2))

/-- Parse a JSON integer (fractional and exponent forms are rejected). -/
def parseJsonNumber (cs : List Char) : Option (JSValue × List Char) :=
  let neg := match cs with
    | '-' :: _ => true
    | _ => false
  let cs1 := match cs with
    | '-' :: r => r
    | _ => cs
  let digits := cs1.takeWhile Char.isDigit
  let rest := cs1.dropWhile Char.isDigit
  if digits.isEmpty then none
  else
    match rest with
    | '.' :: _ => none
    | 'e' :: _ => none
    | 'E' :: _ => none
    | _ =>
      let n : Nat := digits.foldl (fun acc c => acc * 10 + (c.toNat - '0'.toNat)) 0
      some (.vnum (if neg then -(n : Int) else (n : Int)), rest)

mutual
/-- Parse one JSON value. -/
def parseJsonValue : Nat → List Char → Option (JSValue × List Char)
  | 0, _ => none
  | Nat.succ fuel, cs =>
    match skipWs cs with
    | [] => none
    | '"' :: rest =>
      (parseJsonStringChars (rest.length + 1) rest).map (fun p => (JSValue.vstr p.1, p.2))
    | '{' :: rest =>
      (match skipWs rest with
       | '}' :: r2 => some (JSValue.vobj [], r2)
       | other => (parseJsonMembers fuel other).map (fun p => (JSValue.vobj p.1, p.2)))
    | '[' :: rest =>
      (match skipWs rest with
       | ']' :: r2 => some (JSValue.varr [] [], r2)
       | other => (parseJsonElements fuel other).map (fun p => (JSValue.varr p.1 [], p.2)))
    | 't' :: 'r' :: 'u' :: 'e' :: rest => some (JSValue.vbool true, rest)
    | 'f' :: 'a' :: 'l' :: 's' :: 'e' :: rest => some (JSValue.vbool false, rest)
    | 'n' :: 'u' :: 'l' :: 'l' :: rest => some (JSValue.vnull, rest)
    | other => parseJsonNumber other

/-- Parse the members of a JSON object (positioned at the first key). -/
def parseJsonMembers : Nat → List Char → Option (List (String × JSValue) × List Char)
  | 0, _ => none
  | Nat.succ fuel, cs =>
    match skipWs cs with
    | '"' :: rest =>
      match parseJsonStringChars (rest.length + 1) rest with
      | none => none
      | some (key, rest2) =>
        match skipWs rest2 with
        | ':' :: rest3 =>
          match parseJsonValue fuel rest3 with
          | none => none
          | some (v, rest4) =>
            match skipWs rest4 with
            | ',' :: rest5 =>
              (parseJsonMembers fuel rest5).map (fun p => ((key, v) :: p.1, p.2))
            | '}' :: rest5 => some ([(key, v)], rest5)
            | _ => none
        | _ => none
    | _ => none

/-- Parse the elements of a JSON array (positioned at the first element). -/
def parseJsonElements : Nat → List Char → Option (List JSValue × List Char)
  | 0, _ => none
  | Nat.succ fuel, cs =>
    match parseJsonValue fuel cs with
    | none => none
    | some (v, rest) =>
      match skipWs rest with
      | ',' :: rest2 => (parseJsonElements fuel rest2).map (fun p => (v :: p.1, p.2))
      | ']' :: rest2 => some ([v], rest2)
      | _ => none
end

/-- `JSON.parse` on the modelled subset: the whole input must be consumed. -/
def jsonParse (s : String) : Option JSValue :=
  match parseJsonValue (s.length + 1) s.data with
  | some (v, rest) => if (skipWs rest).isEmpty then some v else none
  | none => none

/-! ## Field extraction and dispatch -/

/-- Plugin settings as resolved by the settings service (string fields use
`''` for "unset", matching the configuration defaults). -/
structure PluginSettings where
  difyEndpoint : String
  difyApiKey : String
  callbackUrl : String
  callbackBasePath : String
  difyUser : String
  sourceLocale : String

/-- The environment `sendToTranslation` runs in.  `freshJobId` stands for
the time-and-randomness-based `generateJobId()`, and `parseJson` for the
platform `JSON.parse`. -/
structure SendEnv where
  settings : PluginSettings
  availableLocales : List (String × String)
  translatableFields : List String
  contentTypes : ContentTypes
  store : DocStore
  freshJobId : String
  parseJson : String → Option JSValue

/-- `getContentForTranslation`: read the source-locale document (component
population is performed by the store collaborator) and extract the
configured fields, skipping `undefined`, `null` and empty-string values;
keys are emitted in the Dify encoding. -/
def getContentForTranslation (env : SendEnv) (documentId contentType : String) :
    Except String Doc :=
  let sourceLocale := env.settings.sourceLocale
  let translatableFields := env.translatableFields
  if translatableFields.isEmpty then
    .error "No translatable fields configured. Please set translatableFields in plugin config."
  else
    match env.store contentType (.vstr documentId) sourceLocale with
    | none => .error ("Document " ++ documentId ++ " not found for locale " ++ sourceLocale)
    | some document =>
      .ok (translatableFields.foldl
        (fun acc field =>
          let value : Option JSValue :=
            if isNestedField field then
              match parseNestedField field with
              | none => none
              | some (c, _) =>
                if fieldExistsInSchema env.contentTypes contentType c then
                  getNestedValue document field
                else none
            else assoc document field
          match value with
          | some .vnull => acc
          | some (.vstr "") => acc
          | some v => pSet acc (toDifyFieldName field) v
          | none => acc)
        [])

/-- Uppercase hexadecimal digit. -/
def hexDigitUpper (n : Nat) : Char :=
  if n < 10 then Char.ofNat ('0'.toNat + n) else Char.ofNat ('A'.toNat + n - 10)

/-- JS `encodeURIComponent`: unreserved characters pass through, everything
else is percent-encoded from its UTF-8 bytes. -/
def encodeURIComponent (s : String) : String :=
  String.join (s.data.map (fun c =>
    if c.isAlphanum || "-_.!~*'()".data.contains c then String.singleton c
    else
      String.join ((String.singleton c).toUTF8.toList.map (fun b =>
        "%" ++ String.singleton (hexDigitUpper (b.toNat / 16)) ++
          String.singleton (hexDigitUpper (b.toNat % 16))))))

/-- Escape a string for JSON (quotes and backslashes; locale codes contain
no control characters). -/
def jsonEscapeString (s : String) : String :=
  String.join (s.data.map (fun c =>
    if c = '"' then "\\" ++ "\""
    else if c = '\\' then "\\" ++ "\\"
    else String.singleton c))

/-- `JSON.stringify` of an array of strings. -/
def jsonStringifyStringList (ls : List String) : String :=
  "[" ++ String.intercalate "," (ls.map (fun s => "\"" ++ jsonEscapeString s ++ "\"")) ++ "]"

/-- The `inputs` object of the outbound Dify payload (the extracted fields
are spread into the object next to the fixed entries). -/
structure DifyPayloadInputs where
  document_id : String
  fields : Doc
  source_locale : String
  target_locales : String
  callback_url : String

/-- The outbound Dify request body. -/
structure DifyPayload where
  inputs : DifyPayloadInputs
  response_mode : String
  user : String

/-- The synchronous acknowledgment returned by `sendToTranslation`. -/
structure TranslateAck where
  success : Bool
  message : String
  jobId : String
deriving DecidableEq, Repr

/-- Everything `sendToTranslation` computes before dispatching the request:
the acknowledgment it will return, the request payload, and the `startJob`
registration it performs synchronously. -/
structure SendPrep where
  ack : TranslateAck
  jobId : String
  targetLocales : List String
  payload : DifyPayload
  startAction : ProgressAction

/-- The synchronous part of `sendToTranslation` (settings validation,
target-locale resolution, extraction, payload assembly, job registration),
lines 231-283 of the service.  Thrown errors are `Except.error`. -/
def sendPrepare (env : SendEnv) (documentId contentType : String)
    (selectedLocales : Option (List String)) : Except String SendPrep :=
  let s := env.settings
  if s.difyEndpoint = "" then .error "Dify endpoint is not configured"
  else
    let targetLocales :=
      match selectedLocales with
      | some ls =>
        if ls.length > 0 then ls.filter (fun l => l ≠ s.sourceLocale)
        else (env.availableLocales.map Prod.fst).filter (fun c => c ≠ s.sourceLocale)
      | none => (env.availableLocales.map Prod.fst).filter (fun c => c ≠ s.sourceLocale)
    if targetLocales.isEmpty then .error "No target locales available for translation"
    else
      match getContentForTranslation env documentId contentType with
      | .error e => .error e
      | .ok fields =>
        if fields.isEmpty then .error "No translatable content found"
        else
          let finalCallbackUrl :=
            s.callbackUrl ++ s.callbackBasePath ++ "?content_type=" ++
              encodeURIComponent contentType
          let payload : DifyPayload :=
            { inputs :=
                { document_id := documentId, fields := fields,
                  source_locale := s.sourceLocale,
                  target_locales := jsonStringifyStringList targetLocales,
                  callback_url := finalCallbackUrl },
              response_mode := "streaming", user := s.difyUser }
          let jobId := env.freshJobId
          .ok
            { ack :=
                { success := true,
                  message := "Translation request sent for " ++
                    toString targetLocales.length ++ " locale(s)",
                  jobId := jobId },
              jobId := jobId, targetLocales := targetLocales, payload := payload,
              startAction := .startJob jobId documentId contentType targetLocales }

/-- Every possible outcome of the outbound HTTP request and its streamed
response body. -/
inductive NetworkOutcome where
  | connectError (message : String)
  | httpError (status : Nat) (body : String)
  | okNoBody
  | okStream (chunks : List String)
  | okStreamAbort (chunks : List String) (message : String)

/-- The progress-service actions performed by the detached background
operation (the `.then`/`.catch` continuations of the `fetch`). -/
def backgroundActions (parseJson : String → Option JSValue) (net : NetworkOutcome) :
    List ProgressAction :=
  match net with
  | .connectError m => [.complete false (some (.vstr ("Failed to connect to Dify: " ++ m)))]
  | .httpError status _body =>
    [.complete false (some (.vstr ("Dify API error: " ++ toString status)))]
  | .okNoBody => [.complete false (some (.vstr "Dify response has no body"))]
  | .okStream chunks => sseParseChunks parseJson chunks
  | .okStreamAbort chunks m =>
    sseParseChunks parseJson chunks ++
      [.complete false (some (.vstr ("Stream error: " ++ m)))]

/-- `sendToTranslation`: the prepared acknowledgment is returned while the
network call runs detached; the background outcome contributes only
progress-service actions (the second component), never the acknowledgment. -/
def sendToTranslation (env : SendEnv) (documentId contentType : String)
    (selectedLocales : Option (List String)) (net : NetworkOutcome) :
    Except String (TranslateAck × List ProgressAction) :=
  (sendPrepare env documentId contentType selectedLocales).map
    (fun prep => (prep.ack, prep.startAction :: backgroundActions env.parseJson net))

/-- The one-shot reference parse of a whole stream body. -/
def sseParseAll (parseJson : String → Option JSValue) (s : String) : List ProgressAction :=
  sseParseChunks parseJson [s]

/-- The related-document identifiers the merge engine extracts for a
relation field: taken from the existing target-locale value, falling back to
the source-locale value. -/
def relationCandidateIds (ex : Option Doc) (src : Doc) (fieldName : String) : List JSValue :=
  match jsOr (existingField ex fieldName) (assoc src fieldName) with
  | some rv => extractRelationIds rv
  | none => []

/-- The `connect` directive written for a list of resolved identifiers. -/
def connectDirective (ids : List JSValue) : JSValue :=
  .vobj [("connect", .varr (ids.map (fun idv => .vobj [("documentId", idv)])) [])]

/-- The candidate identifiers of a relation field that actually resolve in
the target locale. -/
def keptRelationIds (store : DocStore) (target : String) (ex : Option Doc)
    (src : Doc) (fieldName locale : String) : List JSValue :=
  filterExistingRelations store target (relationCandidateIds ex src fieldName) locale

/-- A written component property: the payload holds a truthy value at `c`
whose property `f` is `v`. -/
def holdsProp (d : Doc) (c f : String) (v : JSValue) : Prop :=
  ∃ w, assoc d c = some w ∧ truthy w = true ∧ jsProp w f = some v

/-- Event indices are exactly the positions: `events[i].index == i`. -/
def wellIndexed (events : List ProgressEvent) : Prop :=
  ∀ i e, events.get? i = some e → e.index = some i

/-- Every job in the registry has well-indexed events. -/
def jobsWellIndexed (jobs : Jobs) : Prop :=
  ∀ jobId job, assoc jobs jobId = some job → wellIndexed job.events

/-! ## A concrete universe shared by the witnesses and counterexamples -/

/-- An article-like content type: a plain title, an `seo` component, a
relation to a localized author type, a timestamp and a private field. -/
def exPageSchema : ContentTypeSchema :=
  { attributes := [("title", { type := "string" }), ("seo", { type := "component" }),
                   ("author", { type := "relation", target := some "api::author.author" }),
                   ("createdAt", { type := "datetime" }),
                   ("secret", { type := "string", «private» := true })] }

/-- A locale-aware author content type. -/
def exAuthorSchema : ContentTypeSchema :=
  { attributes := [("name", { type := "string" })], localized := some true }

/-- The registry holding the two example content types. -/
def exContentTypes : ContentTypes :=
  [("api::page.page", exPageSchema), ("api::author.author", exAuthorSchema)]

/-- Plugin context: `title` and `seo.title` are configured, source locale `en`. -/
def exCtx : TransCtx :=
  { contentTypes := exContentTypes, translatableFields := ["title", "seo.title"],
    sourceLocale := "en" }

/-- The source document of the specification's merge scenarios. -/
def exSourceDoc : Doc :=
  [("title", .vstr "Hello"), ("seo", .vobj [("title", .vstr "SEO Hello")])]

/-- A store holding only the English source document. -/
def exStore : DocStore := fun ct docId locale =>
  match ct, docId, locale with
  | "api::page.page", .vstr "doc1", "en" => some exSourceDoc
  | _, _, _ => none

/-- A store that also holds a pre-existing French target document. -/
def exStore2 : DocStore := fun ct docId locale =>
  match ct, docId, locale with
  | "api::page.page", .vstr "doc1", "en" => some exSourceDoc
  | "api::page.page", .vstr "doc1", "fr" =>
    some [("title", .vstr "Old Bonjour"), ("seo", .vobj [("title", .vstr "Ancien")])]
  | _, _, _ => none

/-- An empty document store. -/
def exEmptyStore : DocStore := fun _ _ _ => none

/-- Schema for the C1 counterexample: `seo` is a plain string attribute. -/
def cxSchema : ContentTypeSchema :=
  { attributes := [("title", { type := "string" }), ("seo", { type := "string" })] }

/-- Context for the C1 counterexample: the plain field `seo` is also the
component segment of the configured nested path `seo.title`. -/
def cxCtx : TransCtx :=
  { contentTypes := [("api::page.page", cxSchema)],
    translatableFields := ["title", "seo", "seo.title"], sourceLocale := "en" }

/-- Source document of the C1 counterexample. -/
def cxSourceDoc : Doc := [("title", .vstr "Hello"), ("seo", .vstr "s")]

/-- Store of the C1 counterexample. -/
def cxStore : DocStore := fun ct docId locale =>
  match ct, docId, locale with
  | "api::page.page", .vstr "doc1", "en" => some cxSourceDoc
  | _, _, _ => none

/-- Schema for the C4 counterexample: a localized relation `author`. -/
def c4Schema : ContentTypeSchema :=
  { attributes := [("title", { type := "string" }),
                   ("author", { type := "relation", target := some "api::author.author" })] }

/-- Context for the C4 counterexample: the relation field `author` is also
the component segment of the configured nested path `author.documentId`. -/
def c4Ctx : TransCtx :=
  { contentTypes := [("api::page.page", c4Schema), ("api::author.author", exAuthorSchema)],
    translatableFields := ["title", "author.documentId"], sourceLocale := "en" }

/-- Source document of the C4 counterexample: the only related author does
not exist in the target locale. -/
def c4SourceDoc : Doc :=
  [("title", .vstr "Hello"), ("author", .vobj [("documentId", .vstr "a1")])]

/-- Store of the C4 counterexample (no author document in any locale). -/
def c4Store : DocStore := fun ct docId locale =>
  match ct, docId, locale with
  | "api::page.page", .vstr "doc1", "en" => some c4SourceDoc
  | _, _, _ => none

/-- A content type whose only localizable field is the `seo` component, with
two configured nested paths. -/
def sibSchema : ContentTypeSchema :=
  { attributes := [("seo", { type := "component" })] }

/-- Context configuring both `seo.title` and `seo.description`. -/
def sibCtx : TransCtx :=
  { contentTypes := [("api::page.page", sibSchema)],
    translatableFields := ["seo.title", "seo.description"], sourceLocale := "en" }

/-- Source document with three subfields in the component. -/
def sibSourceDoc : Doc :=
  [("seo", .vobj [("title", .vstr "T"), ("description", .vstr "D"),
                  ("keywords", .vstr "K")])]

/-- Existing French target document with its own three subfields. -/
def sibExistingDoc : Doc :=
  [("seo", .vobj [("title", .vstr "OldT"), ("description", .vstr "OldD"),
                  ("keywords", .vstr "OldK")])]

/-- Store for the sibling-preservation scenario. -/
def sibStore : DocStore := fun ct docId locale =>
  match ct, docId, locale with
  | "api::page.page", .vstr "doc1", "en" => some sibSourceDoc
  | "api::page.page", .vstr "doc1", "fr" => some sibExistingDoc
  | _, _, _ => none

/-- Settings used by the dispatch witnesses. -/
def exSettings : PluginSettings :=
  { difyEndpoint := "https://dify.example/v1/workflows/run", difyApiKey := "",
    callbackUrl := "http://localhost:1337", callbackBasePath := "/api/dify-translations/callback",
    difyUser := "strapi-user", sourceLocale := "en" }

/-- Dispatch environment used by the witnesses. -/
def exSendEnv : SendEnv :=
  { settings := exSettings, availableLocales := [("en", "English"), ("fr", "French")],
    translatableFields := ["title", "seo.title"], contentTypes := exContentTypes,
    store := exStore, freshJobId := "job_1700000000000_abc1234", parseJson := jsonParse }

/-! ## Infrastructure lemmas -/

theorem assoc_pSet_self {α : Type} (l : List (String × α)) (k : String) (v : α) :
    assoc (pSet l k v) k = some v := by
  induction l with
  | nil => simp [pSet, assoc]
  | cons hd tl ih =>
    obtain ⟨a, b⟩ := hd
    by_cases h : a = k
    · subst h
      simp [pSet, assoc]
    · simp [pSet, assoc, h, ih]

theorem assoc_pSet_ne {α : Type} (l : List (String × α)) (k k' : String) (v : α)
    (h : k' ≠ k) : assoc (pSet l k v) k' = assoc l k' := by
  induction l with
  | nil =>
    have hne : ¬ k = k' := fun hh => h hh.symm
    simp [pSet, assoc, hne]
  | cons hd tl ih =>
    obtain ⟨a, b⟩ := hd
    by_cases ha : a = k
    · subst ha
      have hne : ¬ a = k' := fun hh => h hh.symm
      simp [pSet, assoc, hne]
    · by_cases hk : a = k'
      · subst hk
        simp [pSet, assoc, ha]
      · simp [pSet, assoc, ha, hk, ih]

theorem splitOnChar_of_not_contains (sep : Char) (cs : List Char)
    (h : cs.contains sep = false) : splitOnChar sep cs = [cs] := by
  induction cs with
  | nil => simp [splitOnChar]
  | cons c rest ih =>
    simp only [List.contains_cons, Bool.or_eq_false_iff] at h
    have hc : ¬ c = sep := by
      intro hh
      subst hh
      simp [beq_self_eq_true] at h
    rw [splitOnChar, ih h.2]
    simp [hc]

theorem parseNestedField_isNested (p : String) (c f : String)
    (h : parseNestedField p = some (c, f)) : isNestedField p = true := by
  by_cases hc : p.data.contains '.'
  · simpa [isNestedField] using hc
  · exfalso
    rw [parseNestedField, strSplitOnChar,
      splitOnChar_of_not_contains _ _ (by simpa using hc)] at h
    simp at h

theorem foldlM_ok_cons {α β : Type} (f : β → α → Except String β) (b : β) (x : α)
    (xs : List α) (r : β) (h : List.foldlM f b (x :: xs) = .ok r) :
    ∃ b', f b x = .ok b' ∧ List.foldlM f b' xs = .ok r := by
  rw [List.foldlM] at h
  cases hfx : f b x with
  | error e =>
    rw [hfx] at h
    simp [Bind.bind, Except.bind] at h
  | ok b' =>
    rw [hfx] at h
    simp only [Bind.bind, Except.bind] at h
    exact ⟨b', rfl, h⟩

theorem snvInit_assoc_ne (d : Doc) (c : String) (ec : Option JSValue) (c' : String)
    (hne : c' ≠ c) : assoc (snvInit d c ec) c' = assoc d c' := by
  unfold snvInit
  split
  · rfl
  · split
    · split
      · exact assoc_pSet_ne _ _ _ _ hne
      · exact assoc_pSet_ne _ _ _ _ hne
    · exact assoc_pSet_ne _ _ _ _ hne

theorem snvAssign_ok_assoc_ne (d1 : Doc) (c f : String) (v : JSValue) (d' : Doc)
    (c' : String) (hok : snvAssign d1 c f v = .ok d') (hne : c' ≠ c) :
    assoc d' c' = assoc d1 c' := by
  rw [snvAssign] at hok
  split at hok
  · injection hok with h
    subst h
    exact assoc_pSet_ne _ _ _ _ hne
  · injection hok with h
    subst h
    exact assoc_pSet_ne _ _ _ _ hne
  · exact Except.noConfusion hok

theorem setNestedValue_ok_assoc_ne (d : Doc) (p : String) (v : JSValue)
    (b : Option JSValue) (d' : Doc) (c f c' : String)
    (hp : parseNestedField p = some (c, f))
    (hok : setNestedValue d p v b = .ok d') (hne : c' ≠ c) :
    assoc d' c' = assoc d c' := by
  simp only [setNestedValue, hp] at hok
  rw [snvAssign_ok_assoc_ne _ _ _ _ _ _ hok hne, snvInit_assoc_ne _ _ _ _ hne]

theorem snvAssign_ok_prop (d1 : Doc) (c f : String) (v : JSValue) (d' : Doc)
    (hok : snvAssign d1 c f v = .ok d') : holdsProp d' c f v := by
  rw [snvAssign] at hok
  split at hok
  case _ props _ =>
    injection hok with h
    subst h
    exact ⟨.vobj (pSet props f v), assoc_pSet_self _ _ _, rfl,
      by simp [jsProp, assoc_pSet_self]⟩
  case _ items props _ =>
    injection hok with h
    subst h
    exact ⟨.varr items (pSet props f v), assoc_pSet_self _ _ _, rfl,
      by simp [jsProp, assoc_pSet_self]⟩
  case _ =>
    exact Except.noConfusion hok

theorem setNestedValue_ok_prop (d : Doc) (p : String) (v : JSValue)
    (b : Option JSValue) (d' : Doc) (c f : String)
    (hp : parseNestedField p = some (c, f))
    (hok : setNestedValue d p v b = .ok d') : holdsProp d' c f v := by
  simp only [setNestedValue, hp] at hok
  exact snvAssign_ok_prop _ _ _ _ _ hok

theorem snvAssign_preserve_holds (d1 : Doc) (c f₂ : String) (u : JSValue) (d' : Doc)
    (f : String) (v : JSValue) (hok : snvAssign d1 c f₂ u = .ok d')
    (hh : holdsProp d1 c f v) (hcase : f₂ = f → u = v) : holdsProp d' c f v := by
  obtain ⟨w, hw, ht, hpv⟩ := hh
  rw [snvAssign, hw] at hok
  cases w with
  | vobj props =>
    injection hok with h
    subst h
    refine ⟨.vobj (pSet props f₂ u), assoc_pSet_self _ _ _, rfl, ?_⟩
    by_cases hf : f₂ = f
    · subst hf
      simp [jsProp, assoc_pSet_self, hcase rfl]
    · simp only [jsProp] at hpv ⊢
      rw [assoc_pSet_ne _ _ _ _ (fun hh' => hf hh'.symm)]
      exact hpv
  | varr items props =>
    injection hok with h
    subst h
    refine ⟨.varr items (pSet props f₂ u), assoc_pSet_self _ _ _, rfl, ?_⟩
    by_cases hf : f₂ = f
    · subst hf
      simp [jsProp, assoc_pSet_self, hcase rfl]
    · simp only [jsProp] at hpv ⊢
      rw [assoc_pSet_ne _ _ _ _ (fun hh' => hf hh'.symm)]
      exact hpv
  | vnull => exact Except.noConfusion hok
  | vbool b' => exact Except.noConfusion hok
  | vnum n => exact Except.noConfusion hok
  | vstr s => exact Except.noConfusion hok

theorem setNestedValue_preserve_holds (d : Doc) (p : String) (u : JSValue)
    (b : Option JSValue) (d' : Doc) (c f₂ f : String) (v : JSValue)
    (hp : parseNestedField p = some (c, f₂))
    (hok : setNestedValue d p u b = .ok d')
    (hh : holdsProp d c f v) (hcase : f₂ = f → u = v) : holdsProp d' c f v := by
  simp only [setNestedValue, hp] at hok
  obtain ⟨w, hw, ht, hpv⟩ := hh
  have hinit : snvInit d c b = d := by
    unfold snvInit
    rw [hw]
    simp [truthyOpt, ht]
  rw [hinit] at hok
  exact snvAssign_preserve_holds _ _ _ _ _ _ _ hok ⟨w, hw, ht, hpv⟩ hcase

theorem getNestedValue_congr (e : Doc) (p q : String) (c f : String)
    (hp : parseNestedField p = some (c, f)) (hq : parseNestedField q = some (c, f)) :
    getNestedValue e p = getNestedValue e q := by
  rw [getNestedValue, hp, getNestedValue, hq]

theorem nestedTranslatedStep_assoc_ne (ctx : TransCtx) (ct : String) (src : Doc)
    (ex : Option Doc) (md : Doc) (entry : String × JSValue) (md' : Doc) (k : String)
    (hok : nestedTranslatedStep ctx ct src ex md entry = .ok md')
    (hk : ∀ c f, parseNestedField entry.1 = some (c, f) → c ≠ k) :
    assoc md' k = assoc md k := by
  cases hp : parseNestedField entry.1 with
  | none =>
    simp only [nestedTranslatedStep, hp] at hok
    injection hok with h
    rw [← h]
  | some cf =>
    obtain ⟨c, f⟩ := cf
    have hck : k ≠ c := fun hh => hk c f hp hh.symm
    simp only [nestedTranslatedStep, hp] at hok
    by_cases hex : fieldExistsInSchema ctx.contentTypes ct c
    · simp only [hex, Bool.not_true, Bool.false_eq_true, if_false] at hok
      cases hv : entry.2 <;> simp only [hv] at hok
      case _ =>
        injection hok with h
        rw [← h]
      all_goals exact setNestedValue_ok_assoc_ne _ _ _ _ _ _ _ _ hp hok hck
    · simp only [hex] at hok
      simp at hok
      rw [← hok]

theorem existingNested_congr (ex : Option Doc) (p q c f : String)
    (hp : parseNestedField p = some (c, f)) (hq : parseNestedField q = some (c, f)) :
    existingNested ex p = existingNested ex q := by
  cases ex with
  | some e => simp [existingNested, getNestedValue_congr e p q c f hp hq]
  | none => rfl

theorem nestedConfiguredStep_assoc_ne (ctx : TransCtx) (ct : String) (src : Doc)
    (ex : Option Doc) (tn : Doc) (md : Doc) (p : String) (md' : Doc) (k : String)
    (hok : nestedConfiguredStep ctx ct src ex tn md p = .ok md')
    (hk : ∀ c f, parseNestedField p = some (c, f) → c ≠ k) :
    assoc md' k = assoc md k := by
  unfold nestedConfiguredStep at hok
  split at hok
  · split at hok
    · rename_i cf c f hp
      split at hok
      · simp only [] at hok
        split at hok
        · injection hok with h
          rw [← h]
        · injection hok with h
          rw [← h]
        · exact setNestedValue_ok_assoc_ne _ _ _ _ _ _ _ _ hp hok
            (fun hh => hk c f hp hh.symm)
      · injection hok with h
        rw [← h]
    · injection hok with h
      rw [← h]
  · injection hok with h
    rw [← h]

theorem nestedConfiguredStep_preserve_holds (ctx : TransCtx) (ct : String) (src : Doc)
    (ex : Option Doc) (tn : Doc) (md : Doc) (p : String) (md' : Doc)
    (configField c f : String) (v : JSValue)
    (hok : nestedConfiguredStep ctx ct src ex tn md p = .ok md')
    (hh : holdsProp md c f v)
    (hpcf : parseNestedField configField = some (c, f))
    (hval : jsCoalesce (existingNested ex configField)
      (getNestedValue src configField) = some v) :
    holdsProp md' c f v := by
  unfold nestedConfiguredStep at hok
  split at hok
  · split at hok
    · rename_i cf c₂ f₂ hp
      split at hok
      · rename_i hex
        simp only [] at hok
        split at hok
        · injection hok with h
          rw [← h]
          exact hh
        · injection hok with h
          rw [← h]
          exact hh
        · rename_i u hnn hco
          by_cases hc : c₂ = c
          · subst hc
            refine setNestedValue_preserve_holds _ _ _ _ _ _ _ _ _ hp hok hh ?_
            intro hf
            subst hf
            rw [existingNested_congr ex p configField c₂ f₂ hp hpcf,
              getNestedValue_congr src p configField c₂ f₂ hp hpcf, hval] at hco
            injection hco with hv
            exact hv.symm
          · obtain ⟨w, hw, ht, hpv⟩ := hh
            refine ⟨w, ?_, ht, hpv⟩
            rw [setNestedValue_ok_assoc_ne _ _ _ _ _ _ _ _ hp hok
              (fun hh' => hc hh'.symm)]
            exact hw
      · injection hok with h
        rw [← h]
        exact hh
    · injection hok with h
      rw [← h]
      exact hh
  · injection hok with h
    rw [← h]
    exact hh

theorem foldlM_configured_preserve_holds (ctx : TransCtx) (ct : String) (src : Doc)
    (ex : Option Doc) (tn : Doc) (l : List String) (md md' : Doc)
    (configField c f : String) (v : JSValue)
    (hok : List.foldlM (nestedConfiguredStep ctx ct src ex tn) md l = .ok md')
    (hh : holdsProp md c f v)
    (hpcf : parseNestedField configField = some (c, f))
    (hval : jsCoalesce (existingNested ex configField)
      (getNestedValue src configField) = some v) :
    holdsProp md' c f v := by
  induction l generalizing md with
  | nil =>
    simp only [List.foldlM, pure, Except.pure] at hok
    injection hok with h
    rw [← h]
    exact hh
  | cons q rest ih =>
    obtain ⟨md₁, hstep, hrest⟩ := foldlM_ok_cons _ _ _ _ _ hok
    exact ih md₁ hrest
      (nestedConfiguredStep_preserve_holds _ _ _ _ _ _ _ _ _ _ _ _ hstep hh hpcf hval)

theorem foldlM_configured_establish (ctx : TransCtx) (ct : String) (src : Doc)
    (ex : Option Doc) (tn : Doc) (l : List String) (md md' : Doc)
    (configField c f : String) (v : JSValue)
    (hok : List.foldlM (nestedConfiguredStep ctx ct src ex tn) md l = .ok md')
    (hmem : configField ∈ l)
    (hp : parseNestedField configField = some (c, f))
    (hex : fieldExistsInSchema ctx.contentTypes ct c = true)
    (hnt : assoc tn configField = none)
    (hval : jsCoalesce (existingNested ex configField)
      (getNestedValue src configField) = some v)
    (hvnn : v ≠ JSValue.vnull) :
    holdsProp md' c f v := by
  induction l generalizing md with
  | nil => cases hmem
  | cons q rest ih =>
    obtain ⟨md₁, hstep, hrest⟩ := foldlM_ok_cons _ _ _ _ _ hok
    by_cases hq : q = configField
    · subst hq
      have hguard : (isNestedField q && !truthyOpt (assoc tn q)) = true := by
        rw [parseNestedField_isNested q c f hp, hnt]
        rfl
      have hh1 : holdsProp md₁ c f v := by
        unfold nestedConfiguredStep at hstep
        rw [if_pos hguard] at hstep
        simp only [hp, if_pos hex] at hstep
        rw [hval] at hstep
        cases v with
        | vnull => exact absurd rfl hvnn
        | vbool b => exact setNestedValue_ok_prop _ _ _ _ _ _ _ hp hstep
        | vnum n => exact setNestedValue_ok_prop _ _ _ _ _ _ _ hp hstep
        | vstr str => exact setNestedValue_ok_prop _ _ _ _ _ _ _ hp hstep
        | vobj props => exact setNestedValue_ok_prop _ _ _ _ _ _ _ hp hstep
        | varr items props => exact setNestedValue_ok_prop _ _ _ _ _ _ _ hp hstep
      exact foldlM_configured_preserve_holds _ _ _ _ _ _ _ _ _ _ _ _ hrest hh1 hp hval
    · have hmem2 : configField ∈ rest := by
        cases hmem with
        | head => exact absurd rfl hq
        | tail _ h => exact h
      exact ih md₁ hrest hmem2

theorem assoc_mergeField_ne (ctx : TransCtx) (store : DocStore) (ct locale : String)
    (src : Doc) (ex : Option Doc) (tr : Doc) (md : Doc) (fieldName k : String)
    (hne : k ≠ fieldName) :
    assoc (mergeField ctx store ct locale src ex tr md fieldName) k = assoc md k := by
  unfold mergeField
  split
  · exact assoc_pSet_ne _ _ _ _ hne
  · rfl

theorem assoc_mergeField_self (ctx : TransCtx) (store : DocStore) (ct locale : String)
    (src : Doc) (ex : Option Doc) (tr : Doc) (md : Doc) (fieldName : String) :
    assoc (mergeField ctx store ct locale src ex tr md fieldName) fieldName =
      match mergeFieldValue ctx store ct locale src ex tr fieldName with
      | some v => some v
      | none => assoc md fieldName := by
  unfold mergeField
  split
  · exact assoc_pSet_self _ _ _
  · rfl

theorem foldl_mergeField_not_mem (ctx : TransCtx) (store : DocStore) (ct locale : String)
    (src : Doc) (ex : Option Doc) (tr : Doc) (l : List String) (md : Doc) (k : String)
    (hk : k ∉ l) :
    assoc (l.foldl (mergeField ctx store ct locale src ex tr) md) k = assoc md k := by
  induction l generalizing md with
  | nil => rfl
  | cons g rest ih =>
    rw [List.foldl_cons, ih _ (fun h => hk (List.mem_cons_of_mem _ h)),
      assoc_mergeField_ne _ _ _ _ _ _ _ _ _ _
        (fun h => hk (by rw [h]; exact List.mem_cons_self _ _))]

theorem foldl_mergeField_stable (ctx : TransCtx) (store : DocStore) (ct locale : String)
    (src : Doc) (ex : Option Doc) (tr : Doc) (l : List String) (md : Doc) (k : String)
    (h : assoc md k = mergeFieldValue ctx store ct locale src ex tr k) :
    assoc (l.foldl (mergeField ctx store ct locale src ex tr) md) k =
      mergeFieldValue ctx store ct locale src ex tr k := by
  induction l generalizing md with
  | nil => exact h
  | cons g rest ih =>
    rw [List.foldl_cons]
    apply ih
    by_cases hg : k = g
    · subst hg
      rw [assoc_mergeField_self]
      cases hv : mergeFieldValue ctx store ct locale src ex tr k with
      | some v => rfl
      | none => rw [h, hv]
    · rw [assoc_mergeField_ne _ _ _ _ _ _ _ _ _ _ hg, h]

theorem foldl_mergeField_mem (ctx : TransCtx) (store : DocStore) (ct locale : String)
    (src : Doc) (ex : Option Doc) (tr : Doc) (l : List String) (md : Doc) (k : String)
    (hmem : k ∈ l) (h0 : assoc md k = none) :
    assoc (l.foldl (mergeField ctx store ct locale src ex tr) md) k =
      mergeFieldValue ctx store ct locale src ex tr k := by
  induction l generalizing md with
  | nil => cases hmem
  | cons g rest ih =>
    rw [List.foldl_cons]
    by_cases hg : k = g
    · subst hg
      apply foldl_mergeField_stable
      rw [assoc_mergeField_self]
      cases hv : mergeFieldValue ctx store ct locale src ex tr k with
      | some v => rfl
      | none => rw [h0]
    · have hmem2 : k ∈ rest := by
        cases hmem with
        | head => exact absurd rfl hg
        | tail _ hh => exact hh
      apply ih _ hmem2
      rw [assoc_mergeField_ne _ _ _ _ _ _ _ _ _ _ hg, h0]

theorem assoc_mergeLocalizable_mem (ctx : TransCtx) (store : DocStore)
    (ct locale : String) (src : Doc) (ex : Option Doc) (tr : Doc) (k : String)
    (hmem : k ∈ getLocalizableFields ctx.contentTypes ct) :
    assoc (mergeLocalizable ctx store ct locale src ex tr) k =
      mergeFieldValue ctx store ct locale src ex tr k :=
  foldl_mergeField_mem _ _ _ _ _ _ _ _ _ _ hmem rfl

theorem assoc_mergeLocalizable_not_mem (ctx : TransCtx) (store : DocStore)
    (ct locale : String) (src : Doc) (ex : Option Doc) (tr : Doc) (k : String)
    (hk : k ∉ getLocalizableFields ctx.contentTypes ct) :
    assoc (mergeLocalizable ctx store ct locale src ex tr) k = none :=
  foldl_mergeField_not_mem _ _ _ _ _ _ _ _ _ _ hk

theorem not_mem_localizable_of_excluded (cts : ContentTypes) (ct k : String)
    (hk : excludedFields.contains k = true) : k ∉ getLocalizableFields cts ct := by
  unfold getLocalizableFields
  split
  · simp
  · intro hmem
    rw [List.mem_map] at hmem
    obtain ⟨pr, hpr, hfst⟩ := hmem
    rw [List.mem_filter] at hpr
    have h2 := hpr.2
    rw [hfst] at h2
    simp [hk] at h2
    exact h2.1.1 (by simpa using hk)

theorem publishedAt_not_localizable (cts : ContentTypes) (ct : String) :
    "publishedAt" ∉ getLocalizableFields cts ct :=
  not_mem_localizable_of_excluded cts ct "publishedAt" (by rfl)

theorem storeTranslation_written_inv (ctx : TransCtx) (store : DocStore)
    (documentId contentType locale : String) (fields : Doc)
    (metadata : Option CallbackMetadata) (data : Doc) (msg : String)
    (hw : storeTranslation ctx store documentId contentType locale fields metadata =
      .written data msg) :
    ∃ schema sourceDoc md2 md3,
      assoc ctx.contentTypes contentType = some schema ∧
      store contentType (.vstr documentId) ctx.sourceLocale = some sourceDoc ∧
      List.foldlM (nestedTranslatedStep ctx contentType sourceDoc
          (store contentType (.vstr documentId) locale))
        (mergeLocalizable ctx store contentType locale sourceDoc
          (store contentType (.vstr documentId) locale)
          (splitTranslatedFields ctx.translatableFields fields).1)
        (splitTranslatedFields ctx.translatableFields fields).2 = .ok md2 ∧
      List.foldlM (nestedConfiguredStep ctx contentType sourceDoc
          (store contentType (.vstr documentId) locale)
          (splitTranslatedFields ctx.translatableFields fields).2)
        md2 ctx.translatableFields = .ok md3 ∧
      data = pSet md3 "publishedAt" .vnull := by
  unfold storeTranslation at hw
  split at hw
  · exact StoreOutcome.noConfusion hw
  · split at hw
    · exact StoreOutcome.noConfusion hw
    · rename_i schema hschema
      try simp only [] at hw
      split at hw
      · exact StoreOutcome.noConfusion hw
      · rename_i sourceDoc hsrc
        try simp only [] at hw
        split at hw
        · exact StoreOutcome.noConfusion hw
        · rename_i md2 h2
          split at hw
          · exact StoreOutcome.noConfusion hw
          · rename_i md3 h3
            injection hw with hdata hmsg
            unfold applyTranslatedNested at h2
            unfold applyConfiguredNested at h3
            exact ⟨schema, sourceDoc, md2, md3, hschema, hsrc, h2, h3, hdata.symm⟩

theorem foldlM_translated_assoc_ne (ctx : TransCtx) (ct : String) (src : Doc)
    (ex : Option Doc) (l : List (String × JSValue)) (md md' : Doc) (k : String)
    (hok : List.foldlM (nestedTranslatedStep ctx ct src ex) md l = .ok md')
    (hk : ∀ pv ∈ l, ∀ c f, parseNestedField pv.1 = some (c, f) → c ≠ k) :
    assoc md' k = assoc md k := by
  induction l generalizing md with
  | nil =>
    simp only [List.foldlM, pure, Except.pure] at hok
    injection hok with h
    rw [h]
  | cons e rest ih =>
    obtain ⟨md₁, hstep, hrest⟩ := foldlM_ok_cons _ _ _ _ _ hok
    rw [ih md₁ hrest (fun pv hpv => hk pv (List.mem_cons_of_mem _ hpv)),
      nestedTranslatedStep_assoc_ne _ _ _ _ _ _ _ _ hstep (hk e (List.mem_cons_self _ _))]

theorem foldlM_configured_assoc_ne (ctx : TransCtx) (ct : String) (src : Doc)
    (ex : Option Doc) (tn : Doc) (l : List String) (md md' : Doc) (k : String)
    (hok : List.foldlM (nestedConfiguredStep ctx ct src ex tn) md l = .ok md')
    (hk : ∀ p ∈ l, ∀ c f, parseNestedField p = some (c, f) → c ≠ k) :
    assoc md' k = assoc md k := by
  induction l generalizing md with
  | nil =>
    simp only [List.foldlM, pure, Except.pure] at hok
    injection hok with h
    rw [h]
  | cons p rest ih =>
    obtain ⟨md₁, hstep, hrest⟩ := foldlM_ok_cons _ _ _ _ _ hok
    rw [ih md₁ hrest (fun q hq => hk q (List.mem_cons_of_mem _ hq)),
      nestedConfiguredStep_assoc_ne _ _ _ _ _ _ _ _ _ hstep (hk p (List.mem_cons_self _ _))]

theorem addEvent_jobsWellIndexed (jobs : Jobs) (jobId : String) (e : ProgressEvent)
    (h : jobsWellIndexed jobs) : jobsWellIndexed (addEvent jobs jobId e) := by
  unfold addEvent
  split
  · exact h
  · rename_i job hjob
    intro jid j hjd
    by_cases hj : jid = jobId
    · subst hj
      rw [assoc_pSet_self] at hjd
      injection hjd with hh
      rw [← hh]
      intro i ev hi
      rcases Nat.lt_trichotomy i job.events.length with hlt | heq | hgt
      · rw [List.get?_append hlt] at hi
        exact h jid job hjob i ev hi
      · rw [heq, List.get?_concat_length] at hi
        injection hi with hev
        rw [← hev, heq]
      · rw [List.get?_eq_none.mpr (by simpa using hgt)] at hi
        exact Option.noConfusion hi
    · rw [assoc_pSet_ne _ _ _ _ hj] at hjd
      exact h jid j hjd

theorem startJob_jobsWellIndexed (jobs : Jobs) (jobId documentId contentType : String)
    (tls : List String) (h : jobsWellIndexed jobs) :
    jobsWellIndexed (startJob jobs jobId documentId contentType tls) := by
  unfold startJob
  apply addEvent_jobsWellIndexed
  intro jid j hjd
  by_cases hj : jid = jobId
  · subst hj
    rw [assoc_pSet_self] at hjd
    injection hjd with hh
    rw [← hh]
    intro i ev hi
    simp at hi
  · rw [assoc_pSet_ne _ _ _ _ hj] at hjd
    exact h jid j hjd

theorem completeJob_fields (jobs : Jobs) (jobId : String) (job : TranslationJob)
    (s : Bool) (m : Option String) (hjob : assoc jobs jobId = some job) :
    ∃ job', assoc (completeJob jobs jobId s m) jobId = some job' ∧
      job'.status = (if s then JobStatus.completed else JobStatus.error) ∧
      job'.events.length = job.events.length + 1 := by
  simp only [completeJob, hjob]
  unfold addEvent
  simp only [assoc_pSet_self]
  exact ⟨_, rfl, rfl, by simp⟩

theorem sendPrepare_ok_ack (env : SendEnv) (documentId contentType : String)
    (sel : Option (List String)) (prep : SendPrep)
    (h : sendPrepare env documentId contentType sel = .ok prep) :
    prep.ack = { success := true,
                 message := "Translation request sent for " ++
                   toString prep.targetLocales.length ++ " locale(s)",
                 jobId := env.freshJobId } := by
  unfold sendPrepare at h
  repeat'
    first
      | split at h
      | simp only [] at h
  all_goals
    first
      | exact Except.noConfusion h
      | (injection h with h1; rw [← h1])

theorem mergeFieldValue_plain (ctx : TransCtx) (store : DocStore) (ct locale : String)
    (src : Doc) (ex : Option Doc) (tr : Doc) (fieldName : String)
    (hrel : (getRelationFields ctx.contentTypes ct).contains fieldName = false)
    (hcomp : ((getComponentFields ctx.contentTypes ct).1.contains fieldName ||
      (getComponentFields ctx.contentTypes ct).2.contains fieldName) = false) :
    mergeFieldValue ctx store ct locale src ex tr fieldName =
      (if definedNonNull (assoc tr fieldName) then assoc tr fieldName
       else if definedNonNull (existingField ex fieldName) then existingField ex fieldName
       else if definedNonNull (assoc src fieldName) then assoc src fieldName
       else none) := by
  have hrelm : fieldName ∉ getRelationFields ctx.contentTypes ct := by
    simpa using hrel
  have hcompm : fieldName ∉ (getComponentFields ctx.contentTypes ct).1 ∧
      fieldName ∉ (getComponentFields ctx.contentTypes ct).2 := by
    simpa using hcomp
  unfold mergeFieldValue
  simp [hrelm, hcompm.1, hcompm.2]

theorem extractRelationIds_falsy (v : JSValue) (h : truthy v = false) :
    extractRelationIds v = [] := by
  unfold extractRelationIds
  simp [h]

theorem pSet_key {α : Type} (l : List (String × α)) (k k' : String) (v : α)
    (hkey : assoc (pSet l k v) k' ≠ none) : k' = k ∨ assoc l k' ≠ none := by
  by_cases hk : k' = k
  · exact Or.inl hk
  · rw [assoc_pSet_ne l k k' v hk] at hkey
    exact Or.inr hkey

theorem mergeLocalizable_key (ctx : TransCtx) (store : DocStore)
    (ct locale : String) (src : Doc) (ex : Option Doc) (tr : Doc) (k : String)
    (hkey : assoc (mergeLocalizable ctx store ct locale src ex tr) k ≠ none) :
    k ∈ getLocalizableFields ctx.contentTypes ct := by
  by_cases hm : k ∈ getLocalizableFields ctx.contentTypes ct
  · exact hm
  · exact absurd (assoc_mergeLocalizable_not_mem ctx store ct locale src ex tr k hm)
      hkey

theorem nestedTranslatedStep_key (ctx : TransCtx) (ct : String) (src : Doc)
    (ex : Option Doc) (md : Doc) (entry : String × JSValue) (md' : Doc) (k : String)
    (hok : nestedTranslatedStep ctx ct src ex md entry = .ok md')
    (hkey : assoc md' k ≠ none) :
    assoc md k ≠ none ∨
      (∃ c f, parseNestedField entry.1 = some (c, f) ∧ c = k ∧
        fieldExistsInSchema ctx.contentTypes ct c = true) := by
  by_cases hbase : assoc md k ≠ none
  · exact Or.inl hbase
  · cases hp : parseNestedField entry.1 with
    | none =>
      simp only [nestedTranslatedStep, hp] at hok
      injection hok with h
      rw [← h] at hkey
      exact absurd hkey hbase
    | some cf =>
      obtain ⟨c, f⟩ := cf
      by_cases hex : fieldExistsInSchema ctx.contentTypes ct c = true
      · by_cases hc : c = k
        · exact Or.inr ⟨c, f, rfl, hc, hex⟩
        · have heq := nestedTranslatedStep_assoc_ne ctx ct src ex md entry md' k hok
            (by intro c' f' hp'
                rw [hp] at hp'
                injection hp' with h1
                injection h1 with hc1 hf1
                rw [← hc1]
                exact hc)
          rw [heq] at hkey
          exact absurd hkey hbase
      · have hexf : fieldExistsInSchema ctx.contentTypes ct c = false := by
          simpa using hex
        simp [nestedTranslatedStep, hp, hexf] at hok
        rw [← hok] at hkey
        exact absurd hkey hbase

theorem nestedConfiguredStep_key (ctx : TransCtx) (ct : String) (src : Doc)
    (ex : Option Doc) (tn : Doc) (md : Doc) (p : String) (md' : Doc) (k : String)
    (hok : nestedConfiguredStep ctx ct src ex tn md p = .ok md')
    (hkey : assoc md' k ≠ none) :
    assoc md k ≠ none ∨
      (∃ c f, parseNestedField p = some (c, f) ∧ c = k ∧
        fieldExistsInSchema ctx.contentTypes ct c = true) := by
  by_cases hbase : assoc md k ≠ none
  · exact Or.inl hbase
  · cases hp : parseNestedField p with
    | none =>
      have heq := nestedConfiguredStep_assoc_ne ctx ct src ex tn md p md' k hok
        (by intro c' f' hp'
            rw [hp] at hp'
            exact Option.noConfusion hp')
      rw [heq] at hkey
      exact absurd hkey hbase
    | some cf =>
      obtain ⟨c, f⟩ := cf
      by_cases hex : fieldExistsInSchema ctx.contentTypes ct c = true
      · by_cases hc : c = k
        · exact Or.inr ⟨c, f, rfl, hc, hex⟩
        · have heq := nestedConfiguredStep_assoc_ne ctx ct src ex tn md p md' k hok
            (by intro c' f' hp'
                rw [hp] at hp'
                injection hp' with h1
                injection h1 with hc1 hf1
                rw [← hc1]
                exact hc)
          rw [heq] at hkey
          exact absurd hkey hbase
      · have hexf : fieldExistsInSchema ctx.contentTypes ct c = false := by
          simpa using hex
        unfold nestedConfiguredStep at hok
        split at hok
        · simp [hp, hexf] at hok
          rw [← hok] at hkey
          exact absurd hkey hbase
        · injection hok with h
          rw [← h] at hkey
          exact absurd hkey hbase

theorem foldlM_translated_key (ctx : TransCtx) (ct : String) (src : Doc)
    (ex : Option Doc) (l : List (String × JSValue)) (md md' : Doc) (k : String)
    (hok : List.foldlM (nestedTranslatedStep ctx ct src ex) md l = .ok md')
    (hkey : assoc md' k ≠ none) :
    assoc md k ≠ none ∨
      (∃ pv, pv ∈ l ∧ ∃ c f, parseNestedField pv.1 = some (c, f) ∧ c = k ∧
        fieldExistsInSchema ctx.contentTypes ct c = true) := by
  induction l generalizing md with
  | nil =>
    simp only [List.foldlM, pure, Except.pure] at hok
    injection hok with h
    rw [← h] at hkey
    exact Or.inl hkey
  | cons e rest ih =>
    obtain ⟨md₁, hstep, hrest⟩ := foldlM_ok_cons _ _ _ _ _ hok
    rcases ih md₁ hrest with h1 | ⟨pv, hpv, hrest2⟩
    · rcases nestedTranslatedStep_key ctx ct src ex md e md₁ k hstep h1 with
        h2 | ⟨c, f, hp, hc, hex⟩
      · exact Or.inl h2
      · exact Or.inr ⟨e, List.mem_cons_self _ _, c, f, hp, hc, hex⟩
    · exact Or.inr ⟨pv, List.mem_cons_of_mem _ hpv, hrest2⟩

theorem foldlM_configured_key (ctx : TransCtx) (ct : String) (src : Doc)
    (ex : Option Doc) (tn : Doc) (l : List String) (md md' : Doc) (k : String)
    (hok : List.foldlM (nestedConfiguredStep ctx ct src ex tn) md l = .ok md')
    (hkey : assoc md' k ≠ none) :
    assoc md k ≠ none ∨
      (∃ p, p ∈ l ∧ ∃ c f, parseNestedField p = some (c, f) ∧ c = k ∧
        fieldExistsInSchema ctx.contentTypes ct c = true) := by
  induction l generalizing md with
  | nil =>
    simp only [List.foldlM, pure, Except.pure] at hok
    injection hok with h
    rw [← h] at hkey
    exact Or.inl hkey
  | cons p rest ih =>
    obtain ⟨md₁, hstep, hrest⟩ := foldlM_ok_cons _ _ _ _ _ hok
    rcases ih md₁ hrest with h1 | ⟨q, hq, hrest2⟩
    · rcases nestedConfiguredStep_key ctx ct src ex tn md p md₁ k hstep h1 with
        h2 | ⟨c, f, hp, hc, hex⟩
      · exact Or.inl h2
      · exact Or.inr ⟨p, List.mem_cons_self _ _, c, f, hp, hc, hex⟩
    · exact Or.inr ⟨q, List.mem_cons_of_mem _ hq, hrest2⟩

theorem not_mem_localizable_of_private (cts : ContentTypes) (ct k : String)
    (hk : ∀ schema, assoc cts ct = some schema →
      ∀ p ∈ schema.attributes, p.1 = k → p.2.«private» = true) :
    k ∉ getLocalizableFields cts ct := by
  unfold getLocalizableFields
  cases hs : assoc cts ct with
  | none => simp
  | some schema =>
    simp only [List.mem_map]
    rintro ⟨p, hp, hpk⟩
    have hmem := List.mem_filter.mp hp
    have hpriv := hk schema hs p hmem.1 hpk
    have hflt := hmem.2
    simp [hpriv] at hflt

/-! ## Claims -/

/-- C3: for every callback whose metadata signals failure (`success ===
'false'` or a truthy `error`), `storeTranslation` returns a failure result
immediately; the result is identical for every document store, so no store
read or write can occur or influence it. -/
theorem C3_metadata_failure_skips_store (ctx : TransCtx) (store store₂ : DocStore)
    (documentId contentType locale : String) (fields : Doc)
    (metadata : Option CallbackMetadata)
    (h : metadataFailed metadata = true) :
    storeTranslation ctx store documentId contentType locale fields metadata =
      .failed ("Translation failed: " ++ metadataErrorText metadata) ∧
    storeTranslation ctx store documentId contentType locale fields metadata =
      storeTranslation ctx store₂ documentId contentType locale fields metadata := by
  refine ⟨?_, ?_⟩ <;> simp [storeTranslation, h]

/-- C3 witness: a concrete failing callback returns the failure result on
two different stores, touching neither. -/
theorem C3_metadata_failure_skips_store_witness :
    storeTranslation exCtx exStore "doc1" "api::page.page" "fr" []
        (some { success := some "false" }) =
      .failed ("Translation failed: " ++
        metadataErrorText (some { success := some "false" })) ∧
    storeTranslation exCtx exStore "doc1" "api::page.page" "fr" []
        (some { success := some "false" }) =
      storeTranslation exCtx exEmptyStore "doc1" "api::page.page" "fr" []
        (some { success := some "false" }) :=
  C3_metadata_failure_skips_store exCtx exStore exEmptyStore "doc1" "api::page.page"
    "fr" [] (some { success := some "false" }) rfl

/-- C5: the acknowledgment returned by `sendToTranslation` is the same for
every outcome of the outbound request and its streamed body, and on success
it is exactly `{success: true, message, jobId}`; the network outcome only
contributes progress-service actions. -/
theorem C5_ack_independent_of_network :
    (∀ (env : SendEnv) (documentId contentType : String)
        (sel : Option (List String)) (net net' : NetworkOutcome),
      (sendToTranslation env documentId contentType sel net).map Prod.fst =
        (sendToTranslation env documentId contentType sel net').map Prod.fst) ∧
    (∀ (env : SendEnv) (documentId contentType : String)
        (sel : Option (List String)) (net : NetworkOutcome)
        (r : TranslateAck × List ProgressAction),
      sendToTranslation env documentId contentType sel net = .ok r →
      ∃ prep, sendPrepare env documentId contentType sel = .ok prep ∧
        r = (prep.ack, prep.startAction :: backgroundActions env.parseJson net) ∧
        prep.ack = { success := true,
                     message := "Translation request sent for " ++
                       toString prep.targetLocales.length ++ " locale(s)",
                     jobId := env.freshJobId }) := by
  constructor
  · intro env documentId contentType sel net net'
    cases hp : sendPrepare env documentId contentType sel <;>
      simp [sendToTranslation, hp, Except.map]
  · intro env documentId contentType sel net r hok
    cases hp : sendPrepare env documentId contentType sel with
    | error e => simp [sendToTranslation, hp, Except.map] at hok
    | ok prep =>
      simp only [sendToTranslation, hp, Except.map] at hok
      injection hok with h1
      exact ⟨prep, rfl, h1.symm, sendPrepare_ok_ack _ _ _ _ _ hp⟩

/-- C5 witness: a concrete dispatch returns the fixed acknowledgment for a
failed network outcome, with the outcome feeding only the action list. -/
theorem C5_ack_independent_of_network_witness :
    ∃ prep, sendPrepare exSendEnv "doc1" "api::page.page" none = .ok prep ∧
      (({ success := true, message := "Translation request sent for 1 locale(s)",
          jobId := "job_1700000000000_abc1234" } : TranslateAck),
        [ProgressAction.startJob "job_1700000000000_abc1234" "doc1" "api::page.page" ["fr"],
         ProgressAction.complete false (some (.vstr "Dify response has no body"))]) =
        (prep.ack, prep.startAction :: backgroundActions exSendEnv.parseJson .okNoBody) ∧
      prep.ack = { success := true,
                   message := "Translation request sent for " ++
                     toString prep.targetLocales.length ++ " locale(s)",
                   jobId := exSendEnv.freshJobId } :=
  C5_ack_independent_of_network.2 exSendEnv "doc1" "api::page.page" none .okNoBody _ rfl

/-- C6: the failing input of the chunk-boundary claim.  An `event:` line in
one chunk followed by its `data:` line in the next chunk is dropped by the
incremental parser (the current-event-type variable is re-initialised per
chunk), while the one-shot reference parse of the concatenated stream
dispatches the workflow-finished completion. -/
theorem C6_chunk_boundary_dependence :
    sseParseChunks jsonParse
      ["event: workflow_finished\n",
       "data: \x7b\"data\": \x7b\"status\": \"succeeded\"\x7d\x7d\n"] = [] ∧
    sseParseAll jsonParse
      ("event: workflow_finished\n" ++
        "data: \x7b\"data\": \x7b\"status\": \"succeeded\"\x7d\x7d\n") =
      [ProgressAction.complete true none] :=
  ⟨rfl, rfl⟩

/-- C7 counterexample: the claim "once `completeJob` has set a terminal
status, no further transition occurs" is false — a second `completeJob` with
the opposite success flag moves the job from `completed` to `error`. -/
theorem C7_counterexample :
    (assoc (completeJob (startJob [] "j1" "doc1" "api::page.page" ["fr"])
        "j1" true none) "j1").map TranslationJob.status = some JobStatus.completed ∧
    (assoc (completeJob (completeJob (startJob [] "j1" "doc1" "api::page.page" ["fr"])
        "j1" true none) "j1" false none) "j1").map TranslationJob.status =
      some JobStatus.error :=
  ⟨rfl, rfl⟩

/-- C7 amended: after `completeJob` the status is terminal (never
`running`); a repeated call with the same success flag leaves the status
unchanged and appends one duplicate terminal event, while a repeated call
with a different flag overwrites one terminal status with the other. -/
theorem C7_completeJob_terminal (jobs : Jobs) (jobId : String) (job : TranslationJob)
    (s s' : Bool) (m m' : Option String)
    (hjob : assoc jobs jobId = some job) :
    ∃ job1 job2,
      assoc (completeJob jobs jobId s m) jobId = some job1 ∧
      assoc (completeJob (completeJob jobs jobId s m) jobId s' m') jobId = some job2 ∧
      job1.status = (if s then JobStatus.completed else JobStatus.error) ∧
      job2.status = (if s' then JobStatus.completed else JobStatus.error) ∧
      job2.status ≠ JobStatus.running ∧
      (s' = s → job2.status = job1.status) ∧
      job2.events.length = job1.events.length + 1 := by
  obtain ⟨job1, h1, hs1, hl1⟩ := completeJob_fields jobs jobId job s m hjob
  obtain ⟨job2, h2, hs2, hl2⟩ := completeJob_fields _ jobId job1 s' m' h1
  refine ⟨job1, job2, h1, h2, hs1, hs2, ?_, ?_, hl2⟩
  · rw [hs2]
    cases s' <;> decide
  · intro he
    subst he
    rw [hs1, hs2]

/-- C7 witness: the amended statement applied to a freshly started job. -/
theorem C7_completeJob_terminal_witness :
    ∃ job1 job2,
      assoc (completeJob (startJob [] "j2" "doc1" "api::page.page" ["fr", "de"])
        "j2" true none) "j2" = some job1 ∧
      assoc (completeJob (completeJob (startJob [] "j2" "doc1" "api::page.page"
        ["fr", "de"]) "j2" true none) "j2" true (some "done")) "j2" = some job2 ∧
      job1.status = (if true then JobStatus.completed else JobStatus.error) ∧
      job2.status = (if true then JobStatus.completed else JobStatus.error) ∧
      job2.status ≠ JobStatus.running ∧
      (true = true → job2.status = job1.status) ∧
      job2.events.length = job1.events.length + 1 :=
  C7_completeJob_terminal _ "j2" _ true true none (some "done") rfl

/-- C8: event indices of every job are exactly the positions `0, 1, 2, ...`:
the invariant `events[i].index == i` holds for the empty registry, is
established by `startJob`, and is preserved by any number of `addEvent`
calls. -/
theorem C8_event_indices :
    (∀ (calls : List (String × ProgressEvent)) (jobs : Jobs), jobsWellIndexed jobs →
      jobsWellIndexed (calls.foldl (fun js pe => addEvent js pe.1 pe.2) jobs)) ∧
    (∀ (jobs : Jobs) (jobId documentId contentType : String) (tls : List String),
      jobsWellIndexed jobs →
      jobsWellIndexed (startJob jobs jobId documentId contentType tls)) ∧
    jobsWellIndexed ([] : Jobs) := by
  refine ⟨?_, ?_, ?_⟩
  · intro calls
    induction calls with
    | nil => exact fun jobs h => h
    | cons pe rest ih =>
      intro jobs h
      exact ih _ (addEvent_jobsWellIndexed _ _ _ h)
  · exact fun jobs jobId documentId contentType tls h =>
      startJob_jobsWellIndexed jobs jobId documentId contentType tls h
  · intro jid j hjd
    exact Option.noConfusion hjd

/-- C8 witness: the invariant after a started job followed by two appended
events. -/
theorem C8_event_indices_witness :
    jobsWellIndexed
      ([("j1", ({ jobId := "j1", type := .node_started, message := "Translate" }
          : ProgressEvent)),
        ("j1", ({ jobId := "j1", type := .node_finished, message := "Saved" }
          : ProgressEvent))].foldl
        (fun js pe => addEvent js pe.1 pe.2)
        (startJob [] "j1" "doc1" "api::page.page" ["fr", "de"])) :=
  C8_event_indices.1 _ _
    (C8_event_indices.2.1 [] "j1" "doc1" "api::page.page" ["fr", "de"]
      C8_event_indices.2.2)

/-- C1 counterexample: with `seo` a plain localizable string attribute that
is also the component segment of the configured nested path `seo.title`, a
callback translating `seo` to `""` and `seo_title` to `"U"` produces a write
whose `seo` value is the object `{title: "U"}`, not the first defined,
non-null candidate `""` demanded by the claimed precedence. -/
theorem C1_counterexample :
    assoc (splitTranslatedFields cxCtx.translatableFields
        [("seo", JSValue.vstr ""), ("seo_title", JSValue.vstr "U")]).1 "seo" =
      some (JSValue.vstr "") ∧
    "seo" ∈ getLocalizableFields cxCtx.contentTypes "api::page.page" ∧
    (getRelationFields cxCtx.contentTypes "api::page.page").contains "seo" = false ∧
    ((getComponentFields cxCtx.contentTypes "api::page.page").1.contains "seo" ||
      (getComponentFields cxCtx.contentTypes "api::page.page").2.contains "seo") = false ∧
    (∃ d m, storeTranslation cxCtx cxStore "doc1" "api::page.page" "fr"
        [("seo", JSValue.vstr ""), ("seo_title", JSValue.vstr "U")] none =
          .written d m ∧
      assoc d "seo" = some (JSValue.vobj [("title", JSValue.vstr "U")])) ∧
    JSValue.vobj [("title", JSValue.vstr "U")] ≠ JSValue.vstr "" :=
  ⟨rfl, by decide, rfl, rfl, ⟨_, _, rfl, rfl⟩, fun h => JSValue.noConfusion h⟩

/-- C1 amended: for every localizable field that is neither a relation nor a
component/dynamic-zone field, and that is not the component segment of any
translated or configured nested field path, the written value is chosen by
the precedence translated → existing target → source, the first defined
non-null candidate winning, with the field absent when all three are
undefined or null. -/
theorem C1_plain_field_precedence (ctx : TransCtx) (store : DocStore)
    (documentId contentType locale : String) (fields : Doc)
    (metadata : Option CallbackMetadata) (data : Doc) (msg : String)
    (sourceDoc : Doc) (fieldName : String)
    (hw : storeTranslation ctx store documentId contentType locale fields metadata =
      .written data msg)
    (hsrc : store contentType (.vstr documentId) ctx.sourceLocale = some sourceDoc)
    (hloc : fieldName ∈ getLocalizableFields ctx.contentTypes contentType)
    (hrel : (getRelationFields ctx.contentTypes contentType).contains fieldName = false)
    (hcomp : ((getComponentFields ctx.contentTypes contentType).1.contains fieldName ||
      (getComponentFields ctx.contentTypes contentType).2.contains fieldName) = false)
    (hA : ∀ pv ∈ (splitTranslatedFields ctx.translatableFields fields).2,
      ∀ c f, parseNestedField pv.1 = some (c, f) → c ≠ fieldName)
    (hB : ∀ p ∈ ctx.translatableFields,
      ∀ c f, parseNestedField p = some (c, f) → c ≠ fieldName) :
    assoc data fieldName =
      (if definedNonNull
          (assoc (splitTranslatedFields ctx.translatableFields fields).1 fieldName)
       then assoc (splitTranslatedFields ctx.translatableFields fields).1 fieldName
       else if definedNonNull
          (existingField (store contentType (.vstr documentId) locale) fieldName)
       then existingField (store contentType (.vstr documentId) locale) fieldName
       else if definedNonNull (assoc sourceDoc fieldName)
       then assoc sourceDoc fieldName
       else none) := by
  obtain ⟨schema, sourceDoc', md2, md3, hschema, hsrc', h2, h3, hdata⟩ :=
    storeTranslation_written_inv _ _ _ _ _ _ _ _ _ hw
  rw [hsrc] at hsrc'
  injection hsrc' with hsd
  subst hsd
  have hpub : fieldName ≠ "publishedAt" := by
    intro he
    rw [he] at hloc
    exact publishedAt_not_localizable _ _ hloc
  rw [hdata, assoc_pSet_ne _ _ _ _ hpub,
    foldlM_configured_assoc_ne _ _ _ _ _ _ _ _ _ h3 hB,
    foldlM_translated_assoc_ne _ _ _ _ _ _ _ _ h2 hA,
    assoc_mergeLocalizable_mem _ _ _ _ _ _ _ _ hloc,
    mergeFieldValue_plain _ _ _ _ _ _ _ _ hrel hcomp]

/-- C1 witness: the specification's merge-precedence scenario with a
pre-existing target document — the translated `"Nouveau"` wins for `title`. -/
theorem C1_plain_field_precedence_witness :
    assoc [("title", JSValue.vstr "Nouveau"),
           ("seo", JSValue.vobj [("title", JSValue.vstr "Ancien")]),
           ("publishedAt", JSValue.vnull)] "title" =
      some (JSValue.vstr "Nouveau") :=
  C1_plain_field_precedence exCtx exStore2 "doc1" "api::page.page" "fr"
    [("title", JSValue.vstr "Nouveau")] none _ _ exSourceDoc "title" rfl rfl
    (by decide) rfl rfl
    (by
      intro pv hpv
      rw [show (splitTranslatedFields exCtx.translatableFields
        [("title", JSValue.vstr "Nouveau")]).2 = [] from rfl] at hpv
      exact absurd hpv (List.not_mem_nil pv))
    (by
      intro p hp c f hpf
      rcases List.mem_cons.mp hp with h1 | h1
      · subst h1
        rw [show parseNestedField "title" = none from rfl] at hpf
        exact Option.noConfusion hpf
      · rcases List.mem_cons.mp h1 with h2 | h2
        · subst h2
          rw [show parseNestedField "seo.title" = some ("seo", "title") from rfl] at hpf
          injection hpf with hpair
          injection hpair with hc hf
          rw [← hc]
          decide
        · exact absurd h2 (List.not_mem_nil p))

/-- C4 counterexample: the relation field `author` has a locale-aware target
and its only related document does not resolve in the target locale, yet the
field is not absent from the write — the configured nested path
`author.documentId` backfills it with a raw object copied from the source. -/
theorem C4_counterexample :
    "author" ∈ getLocalizableFields c4Ctx.contentTypes "api::page.page" ∧
    (getRelationFields c4Ctx.contentTypes "api::page.page").contains "author" = true ∧
    getRelationTarget c4Ctx.contentTypes "api::page.page" "author" =
      some "api::author.author" ∧
    isContentTypeLocalized c4Ctx.contentTypes "api::author.author" = true ∧
    keptRelationIds c4Store "api::author.author"
      (c4Store "api::page.page" (.vstr "doc1") "fr") c4SourceDoc "author" "fr" = [] ∧
    (∃ d m, storeTranslation c4Ctx c4Store "doc1" "api::page.page" "fr"
        [("title", JSValue.vstr "Bonjour")] none = .written d m ∧
      assoc d "author" = some (JSValue.vobj [("documentId", JSValue.vstr "a1")])) :=
  ⟨by decide, rfl, rfl, rfl, rfl, ⟨_, _, rfl, rfl⟩⟩

/-- C4 amended: for every localizable relation field whose target content
type is locale-aware, provided the field is not the component segment of any
translated or configured nested field path: the identifiers taken from the
existing target value (falling back to the source value) are filtered by
per-identifier store probes in the target locale, the surviving ones are
written as a `connect` directive, and the field is entirely absent when none
survive. -/
theorem C4_relation_locale_filtering (ctx : TransCtx) (store : DocStore)
    (documentId contentType locale : String) (fields : Doc)
    (metadata : Option CallbackMetadata) (data : Doc) (msg : String)
    (sourceDoc : Doc) (fieldName target : String)
    (hw : storeTranslation ctx store documentId contentType locale fields metadata =
      .written data msg)
    (hsrc : store contentType (.vstr documentId) ctx.sourceLocale = some sourceDoc)
    (hloc : fieldName ∈ getLocalizableFields ctx.contentTypes contentType)
    (hrel : (getRelationFields ctx.contentTypes contentType).contains fieldName = true)
    (htgt : getRelationTarget ctx.contentTypes contentType fieldName = some target)
    (hlocz : isContentTypeLocalized ctx.contentTypes target = true)
    (hA : ∀ pv ∈ (splitTranslatedFields ctx.translatableFields fields).2,
      ∀ c f, parseNestedField pv.1 = some (c, f) → c ≠ fieldName)
    (hB : ∀ p ∈ ctx.translatableFields,
      ∀ c f, parseNestedField p = some (c, f) → c ≠ fieldName) :
    (keptRelationIds store target (store contentType (.vstr documentId) locale)
        sourceDoc fieldName locale ≠ [] →
      assoc data fieldName = some (connectDirective
        (keptRelationIds store target (store contentType (.vstr documentId) locale)
          sourceDoc fieldName locale))) ∧
    (keptRelationIds store target (store contentType (.vstr documentId) locale)
        sourceDoc fieldName locale = [] →
      assoc data fieldName = none) := by
  obtain ⟨schema, sourceDoc', md2, md3, hschema, hsrc', h2, h3, hdata⟩ :=
    storeTranslation_written_inv _ _ _ _ _ _ _ _ _ hw
  rw [hsrc] at hsrc'
  injection hsrc' with hsd
  subst hsd
  have hpub : fieldName ≠ "publishedAt" := by
    intro he
    rw [he] at hloc
    exact publishedAt_not_localizable _ _ hloc
  have hmain : assoc data fieldName =
      mergeFieldValue ctx store contentType locale sourceDoc
        (store contentType (.vstr documentId) locale)
        (splitTranslatedFields ctx.translatableFields fields).1 fieldName := by
    rw [hdata, assoc_pSet_ne _ _ _ _ hpub,
      foldlM_configured_assoc_ne _ _ _ _ _ _ _ _ _ h3 hB,
      foldlM_translated_assoc_ne _ _ _ _ _ _ _ _ h2 hA,
      assoc_mergeLocalizable_mem _ _ _ _ _ _ _ _ hloc]
  rw [hmain]
  unfold mergeFieldValue
  simp only [hrel, htgt, hlocz, eq_self_iff_true, if_true]
  unfold keptRelationIds relationCandidateIds
  cases hrv : jsOr (existingField (store contentType (.vstr documentId) locale) fieldName)
      (assoc sourceDoc fieldName) with
  | none =>
    constructor
    · intro hne
      exact absurd rfl hne
    · intro _
      rfl
  | some rvv =>
    by_cases htr : truthy rvv = true
    · simp only [htr, eq_self_iff_true, if_true]
      by_cases hlen :
          0 < (filterExistingRelations store target (extractRelationIds rvv) locale).length
      · simp only [hlen, if_true]
        constructor
        · intro _
          rfl
        · intro heq
          rw [heq] at hlen
          simp at hlen
      · simp only [hlen, if_false]
        constructor
        · intro hne
          exact absurd (List.length_pos.mpr hne) hlen
        · intro _
          trivial
    · have htf : truthy rvv = false := by simpa using htr
      simp only [extractRelationIds_falsy rvv htf, htf, Bool.false_eq_true, if_false]
      constructor
      · intro hne
        exact absurd rfl hne
      · intro _
        first
          | rfl
          | trivial

/-- C4 witness: the amended statement on the example page — the relation
value is absent everywhere, no identifier survives, and the `author` field
is absent from the write payload. -/
theorem C4_relation_locale_filtering_witness :
    (([] : List JSValue) ≠ [] →
      assoc [("title", JSValue.vstr "Bonjour"),
             ("seo", JSValue.vobj [("title", JSValue.vstr "SEO Hello")]),
             ("publishedAt", JSValue.vnull)] "author" =
        some (connectDirective [])) ∧
    (([] : List JSValue) = [] →
      assoc [("title", JSValue.vstr "Bonjour"),
             ("seo", JSValue.vobj [("title", JSValue.vstr "SEO Hello")]),
             ("publishedAt", JSValue.vnull)] "author" = none) :=
  C4_relation_locale_filtering exCtx exStore "doc1" "api::page.page" "fr"
    [("title", JSValue.vstr "Bonjour")] none _ _ exSourceDoc "author"
    "api::author.author" rfl rfl (by decide) rfl rfl rfl
    (by
      intro pv hpv
      rw [show (splitTranslatedFields exCtx.translatableFields
        [("title", JSValue.vstr "Bonjour")]).2 = [] from rfl] at hpv
      exact absurd hpv (List.not_mem_nil pv))
    (by
      intro p hp c f hpf
      rcases List.mem_cons.mp hp with h1 | h1
      · subst h1
        rw [show parseNestedField "title" = none from rfl] at hpf
        exact Option.noConfusion hpf
      · rcases List.mem_cons.mp h1 with h2 | h2
        · subst h2
          rw [show parseNestedField "seo.title" = some ("seo", "title") from rfl] at hpf
          injection hpf with hpair
          injection hpair with hc hf
          rw [← hc]
          decide
        · exact absurd h2 (List.not_mem_nil p))

/-- C9 counterexample: with the configured list `["seo_title", "seo.title"]`
the nested path `seo.title` encodes to `seo_title`, and decoding returns the
earlier configured entry `seo_title`, not the original path — the round trip
fails when two configured fields share an encoding. -/
theorem C9_counterexample :
    "seo.title" ∈ ["seo_title", "seo.title"] ∧
    isNestedField "seo.title" = true ∧
    fromDifyFieldName (toDifyFieldName "seo.title") ["seo_title", "seo.title"] =
      "seo_title" ∧
    ("seo_title" : String) ≠ "seo.title" :=
  ⟨by decide, rfl, rfl, by decide⟩

/-- C9 amended: encoding a configured nested field path and decoding it
against the same configured list returns the original path, provided no
other configured entry shares its encoded form. -/
theorem C9_roundtrip (tf : List String) (f : String) (hmem : f ∈ tf)
    (hnested : isNestedField f = true)
    (huniq : ∀ g ∈ tf, toDifyFieldName g = toDifyFieldName f → g = f) :
    fromDifyFieldName (toDifyFieldName f) tf = f := by
  have _hn := hnested
  unfold fromDifyFieldName
  induction tf with
  | nil => cases hmem
  | cons g rest ih =>
    by_cases hg : (toDifyFieldName g == toDifyFieldName f) = true
    · have hfind : List.find? (fun c => toDifyFieldName c == toDifyFieldName f)
          (g :: rest) = some g := by
        simp [List.find?, hg]
      rw [hfind]
      exact huniq g (List.mem_cons_self _ _) (by simpa using hg)
    · have hgf : (toDifyFieldName g == toDifyFieldName f) = false := by
        simpa using hg
      have hfind : List.find? (fun c => toDifyFieldName c == toDifyFieldName f)
          (g :: rest) =
          List.find? (fun c => toDifyFieldName c == toDifyFieldName f) rest := by
        simp [List.find?, hgf]
      rw [hfind]
      have hmem2 : f ∈ rest := by
        cases hmem with
        | head => exact absurd (by simp) hg
        | tail _ hh => exact hh
      exact ih hmem2 (fun q hq hq2 => huniq q (List.mem_cons_of_mem _ hq) hq2)

/-- C9 witness: the round trip on the configured list of the example
context. -/
theorem C9_roundtrip_witness :
    fromDifyFieldName (toDifyFieldName "seo.title") ["title", "seo.title"] =
      "seo.title" :=
  C9_roundtrip ["title", "seo.title"] "seo.title" (by decide) rfl (by decide)

/-- C2: for every configured nested field path (one-dot path whose component
exists in the schema) that did not receive a translated value in the current
callback, the written component object contains that subfield with the
existing-target-locale subfield value falling back to the source-locale
subfield value (general part); the spec scenario — source
`\x7btitle: "Hello", seo: \x7btitle: "SEO Hello"\x7d\x7d`, no existing target
document, callback `\x7btitle: "Bonjour"\x7d` — yields a write containing
`title: "Bonjour"` and `seo: \x7btitle: "SEO Hello"\x7d`; and sibling subfields
of the shallow-copied component base are preserved, shown on a scenario where
only `seo.title` is translated and the untouched sibling `keywords` keeps its
existing value. -/
theorem C2_configured_backfill :
    (∀ (ctx : TransCtx) (store : DocStore)
        (documentId contentType locale : String) (fields : Doc)
        (metadata : Option CallbackMetadata) (data : Doc) (msg : String)
        (sourceDoc : Doc) (configField c f : String) (v : JSValue),
      storeTranslation ctx store documentId contentType locale fields metadata =
        .written data msg →
      store contentType (.vstr documentId) ctx.sourceLocale = some sourceDoc →
      configField ∈ ctx.translatableFields →
      parseNestedField configField = some (c, f) →
      fieldExistsInSchema ctx.contentTypes contentType c = true →
      c ≠ "publishedAt" →
      assoc (splitTranslatedFields ctx.translatableFields fields).2 configField =
        none →
      jsCoalesce (existingNested (store contentType (.vstr documentId) locale)
          configField)
        (getNestedValue sourceDoc configField) = some v →
      v ≠ JSValue.vnull →
      ∃ w, assoc data c = some w ∧ jsProp w f = some v) ∧
    storeTranslation exCtx exStore "doc1" "api::page.page" "fr"
      [("title", JSValue.vstr "Bonjour")] none =
      .written [("title", JSValue.vstr "Bonjour"),
                ("seo", JSValue.vobj [("title", JSValue.vstr "SEO Hello")]),
                ("publishedAt", JSValue.vnull)]
        "Translation stored for locale fr" ∧
    storeTranslation sibCtx sibStore "doc1" "api::page.page" "fr"
      [("seo_title", JSValue.vstr "NewT")] none =
      .written [("seo", JSValue.vobj [("title", JSValue.vstr "NewT"),
                ("description", JSValue.vstr "OldD"),
                ("keywords", JSValue.vstr "OldK")]),
                ("publishedAt", JSValue.vnull)]
        "Translation stored for locale fr" := by
  refine ⟨?_, rfl, rfl⟩
  intro ctx store documentId contentType locale fields metadata data msg
    sourceDoc configField c f v hw hsrc hcfg hparse hex hnp hnt hval hvnn
  obtain ⟨schema, sd, md2, md3, hschema, hsd, h2, h3, hdata⟩ :=
    storeTranslation_written_inv _ _ _ _ _ _ _ _ _ hw
  rw [hsrc] at hsd
  injection hsd with he
  subst he
  obtain ⟨w, hw2, htr, hp2⟩ :=
    foldlM_configured_establish ctx contentType sourceDoc
      (store contentType (.vstr documentId) locale)
      (splitTranslatedFields ctx.translatableFields fields).2
      ctx.translatableFields md2 md3 configField c f v
      h3 hcfg hparse hex hnt hval hvnn
  refine ⟨w, ?_, hp2⟩
  rw [hdata, assoc_pSet_ne _ _ _ _ hnp]
  exact hw2

/-- C2 witness: the general part applied to the sibling scenario at the
untranslated configured path `seo.description`. -/
theorem C2_configured_backfill_witness :
    ∃ w, assoc [("seo", JSValue.vobj [("title", JSValue.vstr "NewT"),
        ("description", JSValue.vstr "OldD"),
        ("keywords", JSValue.vstr "OldK")]),
        ("publishedAt", JSValue.vnull)] "seo" = some w ∧
      jsProp w "description" = some (JSValue.vstr "OldD") :=
  C2_configured_backfill.1 sibCtx sibStore "doc1" "api::page.page" "fr"
    [("seo_title", JSValue.vstr "NewT")] none _ "Translation stored for locale fr"
    sibSourceDoc "seo.description" "seo" "description" (JSValue.vstr "OldD")
    rfl rfl (by decide) rfl rfl (by decide) rfl rfl
    (fun h => JSValue.noConfusion h)

/-- C10: every key of the payload written by an accepted callback is either a
member of the localizable-fields set, or the schema-existing component name of
a nested field path coming from the callback's accepted translated nested
fields or from the configured translatable fields, or the forced draft marker
`publishedAt`; and a key that is in the fixed exclusion list or private in the
schema, is not `publishedAt`, and is not the component of any such nested
path, is never written. -/
theorem C10_frame (ctx : TransCtx) (store : DocStore)
    (documentId contentType locale : String) (fields : Doc)
    (metadata : Option CallbackMetadata) (data : Doc) (msg : String)
    (hw : storeTranslation ctx store documentId contentType locale fields
      metadata = .written data msg) :
    (∀ k, assoc data k ≠ none →
      k ∈ getLocalizableFields ctx.contentTypes contentType ∨
      (∃ p f', parseNestedField p = some (k, f') ∧
        fieldExistsInSchema ctx.contentTypes contentType k = true ∧
        ((∃ u, (p, u) ∈ (splitTranslatedFields ctx.translatableFields fields).2) ∨
          p ∈ ctx.translatableFields)) ∨
      k = "publishedAt") ∧
    (∀ k, (excludedFields.contains k = true ∨
        (∀ schema, assoc ctx.contentTypes contentType = some schema →
          ∀ p ∈ schema.attributes, p.1 = k → p.2.«private» = true)) →
      k ≠ "publishedAt" →
      (∀ pv ∈ (splitTranslatedFields ctx.translatableFields fields).2,
        ∀ c f, parseNestedField pv.1 = some (c, f) → c ≠ k) →
      (∀ p ∈ ctx.translatableFields, ∀ c f, parseNestedField p = some (c, f) →
        c ≠ k) →
      assoc data k = none) := by
  obtain ⟨schema, sd, md2, md3, hschema, hsd, h2, h3, hdata⟩ :=
    storeTranslation_written_inv _ _ _ _ _ _ _ _ _ hw
  constructor
  · intro k hkey
    by_cases hpub : k = "publishedAt"
    · exact Or.inr (Or.inr hpub)
    · rw [hdata, assoc_pSet_ne _ _ _ _ hpub] at hkey
      rcases foldlM_configured_key _ _ _ _ _ _ _ _ _ h3 hkey with
        hk2 | ⟨p, hpmem, c, f, hp, hc, hex⟩
      · rcases foldlM_translated_key _ _ _ _ _ _ _ _ h2 hk2 with
          hk1 | ⟨pv, hpv, c, f, hp, hc, hex⟩
        · exact Or.inl (mergeLocalizable_key _ _ _ _ _ _ _ _ hk1)
        · subst hc
          refine Or.inr (Or.inl ⟨pv.1, f, hp, hex, Or.inl ⟨pv.2, ?_⟩⟩)
          rw [Prod.mk.eta]
          exact hpv
      · subst hc
        exact Or.inr (Or.inl ⟨p, f, hp, hex, Or.inr hpmem⟩)
  · intro k hexc hpub hA hB
    rw [hdata, assoc_pSet_ne _ _ _ _ hpub,
      foldlM_configured_assoc_ne _ _ _ _ _ _ _ _ _ h3 hB,
      foldlM_translated_assoc_ne _ _ _ _ _ _ _ _ h2 hA]
    rcases hexc with hexc | hpriv
    · exact assoc_mergeLocalizable_not_mem _ _ _ _ _ _ _ _
        (not_mem_localizable_of_excluded _ _ _ hexc)
    · exact assoc_mergeLocalizable_not_mem _ _ _ _ _ _ _ _
        (not_mem_localizable_of_private _ _ _ hpriv)

/-- C10 witness: the frame theorem applied to the spec scenario, classifying
the written key `title` and showing the excluded field `createdAt` is absent
from the written payload. -/
theorem C10_frame_witness :
    ("title" ∈ getLocalizableFields exCtx.contentTypes "api::page.page" ∨
      (∃ p f', parseNestedField p = some ("title", f') ∧
        fieldExistsInSchema exCtx.contentTypes "api::page.page" "title" = true ∧
        ((∃ u, (p, u) ∈ (splitTranslatedFields exCtx.translatableFields
            [("title", JSValue.vstr "Bonjour")]).2) ∨
          p ∈ exCtx.translatableFields)) ∨
      "title" = "publishedAt") ∧
    assoc [("title", JSValue.vstr "Bonjour"),
           ("seo", JSValue.vobj [("title", JSValue.vstr "SEO Hello")]),
           ("publishedAt", JSValue.vnull)] "createdAt" = none := by
  refine ⟨(C10_frame exCtx exStore "doc1" "api::page.page" "fr"
      [("title", JSValue.vstr "Bonjour")] none
      [("title", JSValue.vstr "Bonjour"),
       ("seo", JSValue.vobj [("title", JSValue.vstr "SEO Hello")]),
       ("publishedAt", JSValue.vnull)] "Translation stored for locale fr" rfl).1
      "title" (fun h => Option.noConfusion h),
    (C10_frame exCtx exStore "doc1" "api::page.page" "fr"
      [("title", JSValue.vstr "Bonjour")] none
      [("title", JSValue.vstr "Bonjour"),
       ("seo", JSValue.vobj [("title", JSValue.vstr "SEO Hello")]),
       ("publishedAt", JSValue.vnull)] "Translation stored for locale fr" rfl).2
      "createdAt" (Or.inl (by decide)) (by decide) ?_ ?_⟩
  · intro pv hpv c f hp
    exact absurd hpv (List.not_mem_nil pv)
  · intro p hp c f hpf
    simp [exCtx] at hp
    rcases hp with rfl | rfl
    · rw [show parseNestedField "title" = none from rfl] at hpf
      exact Option.noConfusion hpf
    · rw [show parseNestedField "seo.title" = some ("seo", "title") from rfl] at hpf
      injection hpf with h1
      injection h1 with hc hf
      rw [← hc]
      decide

end DifyTranslations
